import Mathlib

/-!
# Verification of the yutori site-capture repository

Shallow embedding of the interaction/network correlator
(`src/workflows/manual_workflow.py`), the site serialization
(`src/data_models.py`), the URL sanitizer (`src/utils.py`), the asset
extractor (`src/workflows/automation_utils.py`) and the DOM truncation pass
(`src/workflows/automated_workflow.py`), together with theorems settling the
spec claims about them.

Modelling conventions:
* Python `float` timestamps and arithmetic are modelled by `ℚ`.
* Python dicts are modelled by association lists with insertion-order
  preservation and in-place overwrite on key collision (`updateAssoc`).
* `uuid.uuid4()` request ids and `id(request.raw)` raw handles are modelled
  by `Nat` values carried by the events; where uniqueness of `uuid4` matters,
  theorems assume the ids in a trace are pairwise distinct.
* Python object identity of `Interaction` records is modelled by the index
  of the record in the logger's `interactions` list (interactions are only
  ever appended, so indices are stable).
-/

namespace Yutori

/- Rational arithmetic must evaluate inside `decide` witnesses, so the
arithmetic on `ℚ` is restored to its default reducibility for this file. -/
attribute [local semireducible] Rat.add Rat.sub Rat.mul Rat.inv Rat.ofScientific

/-- A `LoggedRequest` (`manual_workflow.py`, class `LoggedRequest`): wraps a
raw Playwright request.  `id` models the `uuid4` string, `rawId` models
`id(request.raw)`. -/
structure LoggedRequest where
  id : Nat
  rawId : Nat
  timestamp : ℚ
  method : String
  url : String
  post_data : String
deriving DecidableEq, Repr

/-- A `LoggedResponse` (`manual_workflow.py`, class `LoggedResponse`): keeps a
back-reference to the corresponding `LoggedRequest`. -/
structure LoggedResponse where
  timestamp : ℚ
  status : Nat
  request : LoggedRequest
deriving DecidableEq, Repr

/-- An `Interaction` (`data_models.py`, class `Interaction`), restricted to the
fields the correlator touches: the capture timestamp and the ordered
requests/responses lists, which `add_request`/`add_response` append to. -/
structure InteractionRec where
  timestamp : ℚ
  requests : List LoggedRequest
  responses : List LoggedResponse
deriving DecidableEq, Repr

/-- Python-dict lookup on an association list (`dict.get`). -/
def lookupAssoc {α : Type} (m : List (Nat × α)) (k : Nat) : Option α :=
  match m with
  | [] => none
  | (k', v') :: rest => if k' = k then some v' else lookupAssoc rest k

/-- Python-dict store on an association list (`d[k] = v`): overwrite in place
if the key is present, else append, preserving insertion order. -/
def updateAssoc {α : Type} (m : List (Nat × α)) (k : Nat) (v : α) : List (Nat × α) :=
  match m with
  | [] => [(k, v)]
  | (k', v') :: rest => if k' = k then (k, v) :: rest else (k', v') :: updateAssoc rest k v

/-- The state of `InteractionLogger` (`manual_workflow.py`, lines 35-41):
the append-only interaction list, the pending-request backlog, the
request-id → interaction attribution map, and the raw-handle → logged-request
map. -/
structure InteractionLogger where
  interactions : List InteractionRec
  request_backlog : List LoggedRequest
  request_to_interaction : List (Nat × Nat)
  playwright_to_logged : List (Nat × LoggedRequest)
deriving DecidableEq, Repr

/-- The fresh logger (`InteractionLogger.__init__`). -/
def InteractionLogger.init : InteractionLogger :=
  ⟨[], [], [], []⟩

/-- The backlog-sweep condition of `log_interaction` (line 52):
`req.method == "POST" and req.timestamp > timestamp - 1.0`. -/
def sweepCond (t : ℚ) (r : LoggedRequest) : Bool :=
  r.method = "POST" && decide (t - 1 < r.timestamp)

/-- Append a request to the last interaction of the list
(`self.interactions[-1].add_request(logged_request)`); no-op on the empty
list (the call sites guard on `self.interactions` being nonempty). -/
def attachToLast (ints : List InteractionRec) (r : LoggedRequest) : List InteractionRec :=
  match ints with
  | [] => []
  | [i] => [{ i with requests := i.requests ++ [r] }]
  | i :: rest => i :: attachToLast rest r

/-- `InteractionLogger.log_interaction` (lines 43-60): append the interaction,
then sweep every backlogged request satisfying `sweepCond` out of the backlog,
record its attribution, and append it to the new interaction's request list.
The swept requests keep their backlog order, exactly as the Python loop over
`backlog_to_process` does; the remaining backlog is kept. -/
def InteractionLogger.log_interaction (s : InteractionLogger) (t : ℚ) : InteractionLogger :=
  let idx := s.interactions.length
  let toProcess := s.request_backlog.filter (sweepCond t)
  { interactions := s.interactions ++ [⟨t, toProcess, []⟩]
    request_backlog := s.request_backlog.filter (fun r => !(sweepCond t r))
    request_to_interaction := toProcess.foldl (fun m r => updateAssoc m r.id idx) s.request_to_interaction
    playwright_to_logged := s.playwright_to_logged }

/-- The look-forward condition of `add_request` (line 69):
`self.interactions and self.interactions[-1].timestamp > timestamp - 2`. -/
def forwardCond (ints : List InteractionRec) (t : ℚ) : Bool :=
  match ints.getLast? with
  | none => false
  | some last => decide (t - 2 < last.timestamp)

/-- The attachment pair `current_interaction.add_request(logged_request);
request_to_interaction[logged_request.id] = current_interaction` where
`current_interaction` is `interactions[-1]` (modelled by its index). -/
def attachCurrent (s : InteractionLogger) (r : LoggedRequest) : InteractionLogger :=
  { s with
    interactions := attachToLast s.interactions r
    request_to_interaction := updateAssoc s.request_to_interaction r.id (s.interactions.length - 1) }

/-- `InteractionLogger.add_request` (lines 62-75): register the raw-handle →
logged-request mapping unconditionally, then either attach the request to the
most recent interaction (look-forward window) or push it onto the backlog. -/
def InteractionLogger.add_request (s : InteractionLogger) (r : LoggedRequest) : InteractionLogger :=
  let s1 : InteractionLogger :=
    { s with playwright_to_logged := updateAssoc s.playwright_to_logged r.rawId r }
  if forwardCond s1.interactions r.timestamp then
    attachCurrent s1 r
  else
    { s1 with request_backlog := s1.request_backlog ++ [r] }

/-- The direct-add condition in the `on_request` handler (line 183):
`logger.interactions and time.time() - logger.interactions[-1].timestamp < 2`,
where `time.time()` is the wall clock at check time (`now`). -/
def directAddCond (ints : List InteractionRec) (now : ℚ) : Bool :=
  match ints.getLast? with
  | none => false
  | some last => decide (now - last.timestamp < 2)

/-- The `on_request` handler (`manual_workflow.py`, lines 171-185): drop
non-POST requests; otherwise call `add_request`, and then, if the direct-add
window covers the current time `now`, append the request to the most recent
interaction a second time and re-record the attribution. -/
def on_request (s : InteractionLogger) (r : LoggedRequest) (now : ℚ) : InteractionLogger :=
  if r.method ≠ "POST" then s
  else
    let s1 := s.add_request r
    if directAddCond s1.interactions now then attachCurrent s1 r
    else s1

/-- `InteractionLogger.add_response` (lines 77-90): look up the logged request
for the response's raw request handle; if absent, return unchanged.  Otherwise
build the `LoggedResponse` and append it to the interaction the request was
attributed to, if any; a request with no attributed interaction drops the
response.  The `none` fallback of the inner index lookup is unreachable for
states produced by the operations (the map only ever stores valid indices). -/
def InteractionLogger.add_response (s : InteractionLogger) (rawId : Nat) (t : ℚ) (status : Nat) :
    InteractionLogger :=
  match lookupAssoc s.playwright_to_logged rawId with
  | none => s
  | some r =>
    match lookupAssoc s.request_to_interaction r.id with
    | none => s
    | some i =>
      match s.interactions[i]? with
      | none => s
      | some itc =>
        { s with
          interactions := s.interactions.set i
            { itc with responses := itc.responses ++ [⟨t, status, r⟩] } }

/-- The `on_response` handler (`manual_workflow.py`, lines 187-195): drop
responses whose raw request is not a POST, else delegate to `add_response`. -/
def on_response (s : InteractionLogger) (rawMethod : String) (rawId : Nat) (t : ℚ)
    (status : Nat) : InteractionLogger :=
  if rawMethod ≠ "POST" then s else s.add_response rawId t status

/-- One correlator event, as delivered by the manual-session driver:
a logged user gesture (with its capture timestamp), an outgoing request
(wrapped data plus the wall-clock time `now` at which the handler's direct-add
check runs, with `t ≤ now` in any real execution), or an incoming response. -/
inductive Event where
  | interaction (t : ℚ)
  | request (id rawId : Nat) (t now : ℚ) (method url post_data : String)
  | response (rawMethod : String) (rawId : Nat) (t : ℚ) (status : Nat)
deriving DecidableEq, Repr

/-- Dispatch one event to the corresponding handler. -/
def stepEvent (s : InteractionLogger) (e : Event) : InteractionLogger :=
  match e with
  | .interaction t => s.log_interaction t
  | .request id rawId t now method url pd => on_request s ⟨id, rawId, t, method, url, pd⟩ now
  | .response m rawId t status => on_response s m rawId t status

/-- Run a trace of events from the fresh logger. -/
def runTrace (es : List Event) : InteractionLogger :=
  es.foldl stepEvent .init

/-- The request id carried by a request event. -/
def Event.reqId? : Event → Option Nat
  | .request id _ _ _ _ _ _ => some id
  | _ => none

/-- A request event's wrap timestamp does not exceed the wall clock at its
direct-add check (true in any real execution, where both come from
`time.time()` in that order). -/
def Event.timeConsistent : Event → Prop
  | .request _ _ t now _ _ _ => t ≤ now
  | _ => True

instance (e : Event) : Decidable e.timeConsistent := by
  cases e <;> simp [Event.timeConsistent] <;> infer_instance

/-- Trace well-formedness: request ids (modelling `uuid4`) are pairwise
distinct and every request event is time-consistent. -/
def WFTrace (es : List Event) : Prop :=
  (es.filterMap Event.reqId?).Nodup ∧ ∀ e ∈ es, e.timeConsistent

instance (es : List Event) : Decidable (WFTrace es) := by
  unfold WFTrace; infer_instance

/-! ### Association-list lemmas (Python dict semantics) -/

theorem lookupAssoc_update_self {α : Type} (m : List (Nat × α)) (k : Nat) (v : α) :
    lookupAssoc (updateAssoc m k v) k = some v := by
  induction m with
  | nil => simp [updateAssoc, lookupAssoc]
  | cons p rest ih =>
    obtain ⟨k', v'⟩ := p
    by_cases h : k' = k
    · simp [updateAssoc, lookupAssoc, h]
    · simp [updateAssoc, lookupAssoc, h, ih]

theorem lookupAssoc_update_ne {α : Type} (m : List (Nat × α)) (k k' : Nat) (v : α)
    (h : k' ≠ k) : lookupAssoc (updateAssoc m k v) k' = lookupAssoc m k' := by
  have hkk : ¬ k = k' := fun hh => h hh.symm
  induction m with
  | nil => simp [updateAssoc, lookupAssoc, hkk]
  | cons p rest ih =>
    obtain ⟨k₀, v₀⟩ := p
    by_cases hk : k₀ = k
    · subst hk
      simp [updateAssoc, lookupAssoc, hkk]
    · simp [updateAssoc, lookupAssoc, hk, ih]

theorem mem_updateAssoc {α : Type} {k : Nat} {v : α} {p : Nat × α} :
    ∀ {m : List (Nat × α)}, p ∈ updateAssoc m k v → p = (k, v) ∨ p ∈ m := by
  intro m
  induction m with
  | nil => intro h; simpa [updateAssoc] using h
  | cons q rest ih =>
    obtain ⟨k₀, v₀⟩ := q
    intro h
    by_cases hk : k₀ = k
    · rw [show updateAssoc ((k₀, v₀) :: rest) k v = (k, v) :: rest by
        simp [updateAssoc, hk]] at h
      rcases List.mem_cons.mp h with h | h
      · exact .inl h
      · exact .inr (List.mem_cons_of_mem _ h)
    · rw [show updateAssoc ((k₀, v₀) :: rest) k v = (k₀, v₀) :: updateAssoc rest k v by
        simp [updateAssoc, hk]] at h
      rcases List.mem_cons.mp h with h | h
      · exact .inr (by simp [h])
      · rcases ih h with h' | h'
        · exact .inl h'
        · exact .inr (List.mem_cons_of_mem _ h')

theorem lookupAssoc_mem {α : Type} {k : Nat} {v : α} :
    ∀ {m : List (Nat × α)}, lookupAssoc m k = some v → (k, v) ∈ m := by
  intro m
  induction m with
  | nil => intro h; simp [lookupAssoc] at h
  | cons p rest ih =>
    obtain ⟨k₀, v₀⟩ := p
    intro h
    by_cases hk : k₀ = k
    · have h₀ : v₀ = v := by simpa [lookupAssoc, hk] using h
      subst h₀
      simp [hk]
    · rw [show lookupAssoc ((k₀, v₀) :: rest) k = lookupAssoc rest k by
        simp [lookupAssoc, hk]] at h
      exact List.mem_cons_of_mem _ (ih h)

/-- Sweeping a list of requests into the map with a common target index:
the lookup afterwards is the target for any swept id and unchanged otherwise. -/
theorem lookupAssoc_foldl_update (rs : List LoggedRequest) (v : Nat)
    (m : List (Nat × Nat)) (k : Nat) :
    lookupAssoc (rs.foldl (fun m' r => updateAssoc m' r.id v) m) k =
      if k ∈ rs.map LoggedRequest.id then some v else lookupAssoc m k := by
  induction rs generalizing m with
  | nil => simp
  | cons r rest ih =>
    simp only [List.foldl_cons, List.map_cons, List.mem_cons]
    rw [ih]
    by_cases hrest : k ∈ rest.map LoggedRequest.id
    · simp [hrest]
    · by_cases hr : k = r.id
      · simp [hrest, hr, lookupAssoc_update_self]
      · simp [hrest, hr, lookupAssoc_update_ne _ _ _ _ hr]

/-! ### attachToLast lemmas -/

theorem attachToLast_eq {l : List InteractionRec} {last : InteractionRec}
    (h : l.getLast? = some last) (r : LoggedRequest) :
    attachToLast l r = l.dropLast ++ [{ last with requests := last.requests ++ [r] }] := by
  induction l with
  | nil => simp at h
  | cons a rest ih =>
    cases rest with
    | nil =>
      simp only [List.getLast?_singleton, Option.some.injEq] at h
      subst h
      simp [attachToLast]
    | cons b rest' =>
      rw [List.getLast?_cons_cons] at h
      have hne : (b :: rest' : List InteractionRec) ≠ [] := by simp
      simp only [attachToLast]
      rw [ih h]
      simp [List.dropLast_cons_of_ne_nil hne]

theorem length_attachToLast (l : List InteractionRec) (r : LoggedRequest) :
    (attachToLast l r).length = l.length := by
  induction l with
  | nil => simp [attachToLast]
  | cons a rest ih =>
    cases rest with
    | nil => simp [attachToLast]
    | cons b rest' => simpa [attachToLast] using ih

theorem getElem?_append_singleton {α : Type} {l : List α} {x : α} {i : Nat} :
    (l ++ [x])[i]? = if i < l.length then l[i]? else if i = l.length then some x else none := by
  by_cases h1 : i < l.length
  · rw [if_pos h1]
    exact List.getElem?_append_left h1
  · rw [if_neg h1]
    by_cases h2 : i = l.length
    · subst h2
      simp [List.getElem?_concat_length]
    · rw [if_neg h2]
      apply List.getElem?_eq_none
      simp only [List.length_append, List.length_singleton]
      omega

/-! ### The correlator invariant -/

/-- All requests attributed to some interaction, in order. -/
def allRequests (s : InteractionLogger) : List LoggedRequest :=
  (s.interactions.map InteractionRec.requests).flatten

/-- Every `LoggedRequest` value held anywhere in the logger state. -/
def mentionedRequests (s : InteractionLogger) : List LoggedRequest :=
  s.request_backlog ++ s.playwright_to_logged.map Prod.snd ++ allRequests s

/-- `k` is a fresh `uuid4`: no request value held in the state carries it. -/
def freshId (s : InteractionLogger) (k : Nat) : Prop :=
  ∀ r ∈ mentionedRequests s, r.id ≠ k

/-- The reachable-state invariant of the correlator. -/
structure Inv (s : InteractionLogger) : Prop where
  /-- Every attached response's request is attached to the same interaction. -/
  resp_req : ∀ itc ∈ s.interactions, ∀ resp ∈ itc.responses, resp.request ∈ itc.requests
  /-- Attribution timing: strict look-back or look-forward window. -/
  timing : ∀ itc ∈ s.interactions, ∀ r ∈ itc.requests,
    itc.timestamp - 1 < r.timestamp ∨ r.timestamp - itc.timestamp < 2
  /-- Every attribution-map entry points at an interaction holding a request
  with the mapped id. -/
  map_sound : ∀ k i, lookupAssoc s.request_to_interaction k = some i →
    ∃ itc, s.interactions[i]? = some itc ∧ ∃ r ∈ itc.requests, r.id = k
  /-- Every attributed request's id is mapped to its interaction's index. -/
  list_map : ∀ i itc, s.interactions[i]? = some itc → ∀ r ∈ itc.requests,
    lookupAssoc s.request_to_interaction r.id = some i
  /-- Request ids are injective over all requests held in the state. -/
  inj : ∀ r1 r2, r1 ∈ mentionedRequests s → r2 ∈ mentionedRequests s →
    r1.id = r2.id → r1 = r2
  /-- Backlogged requests are not attributed to any interaction. -/
  backlog_free : ∀ r ∈ s.request_backlog, ∀ itc ∈ s.interactions, r ∉ itc.requests
  /-- A request occurs at most twice in a single interaction's request list. -/
  count_le : ∀ itc ∈ s.interactions, ∀ r : LoggedRequest, itc.requests.count r ≤ 2
  /-- The backlog holds no duplicates. -/
  backlog_nodup : s.request_backlog.Nodup
  /-- Only POST requests are ever backlogged. -/
  backlog_post : ∀ r ∈ s.request_backlog, r.method = "POST"
  /-- Only POST requests are ever attributed. -/
  req_post : ∀ itc ∈ s.interactions, ∀ r ∈ itc.requests, r.method = "POST"

theorem Inv.init : Inv .init := by
  constructor <;> simp [InteractionLogger.init, mentionedRequests, allRequests, lookupAssoc]

theorem getElem?_some_lt {α : Type} {l : List α} {i : Nat} {a : α} (h : l[i]? = some a) :
    i < l.length := by
  by_contra hc
  rw [List.getElem?_eq_none (Nat.le_of_not_lt hc)] at h
  exact Option.noConfusion h

theorem mem_mentioned {s : InteractionLogger} {r : LoggedRequest} :
    r ∈ mentionedRequests s ↔
      r ∈ s.request_backlog ∨ (∃ p ∈ s.playwright_to_logged, p.2 = r) ∨
        ∃ itc ∈ s.interactions, r ∈ itc.requests := by
  simp only [mentionedRequests, allRequests, List.mem_append, List.mem_flatten,
    List.mem_map, or_iff_right_iff_imp]
  constructor
  · rintro ((h | h) | h)
    · exact .inl h
    · refine .inr (.inl ?_)
      obtain ⟨p, hp, hpr⟩ := h
      exact ⟨p, hp, hpr⟩
    · refine .inr (.inr ?_)
      obtain ⟨l, ⟨itc, hitc, rfl⟩, hr⟩ := h
      exact ⟨itc, hitc, hr⟩
  · rintro (h | h | h)
    · exact .inl (.inl h)
    · obtain ⟨p, hp, hpr⟩ := h
      exact .inl (.inr ⟨p, hp, hpr⟩)
    · obtain ⟨itc, hitc, hr⟩ := h
      exact .inr ⟨itc.requests, ⟨itc, hitc, rfl⟩, hr⟩

theorem sweepCond_iff {t : ℚ} {r : LoggedRequest} :
    sweepCond t r = true ↔ r.method = "POST" ∧ t - 1 < r.timestamp := by
  simp [sweepCond]

/-- Sweeping never drops the other state components, and only moves backlog
entries into the new interaction, so every held request was held before. -/
theorem mentioned_log_interaction {s : InteractionLogger} {t : ℚ} {r : LoggedRequest}
    (hr : r ∈ mentionedRequests (s.log_interaction t)) : r ∈ mentionedRequests s := by
  rw [mem_mentioned] at hr ⊢
  simp only [InteractionLogger.log_interaction] at hr
  rcases hr with h | h | h
  · exact .inl (List.mem_of_mem_filter h)
  · exact .inr (.inl h)
  · obtain ⟨itc, hitc, hmem⟩ := h
    rcases List.mem_append.mp hitc with h' | h'
    · exact .inr (.inr ⟨itc, h', hmem⟩)
    · rw [List.mem_singleton] at h'
      subst h'
      exact .inl (List.mem_of_mem_filter hmem)

theorem Inv.log_interaction {s : InteractionLogger} (h : Inv s) (t : ℚ) :
    Inv (s.log_interaction t) := by
  have hints : (s.log_interaction t).interactions =
      s.interactions ++ [⟨t, s.request_backlog.filter (sweepCond t), []⟩] := rfl
  have hbl : (s.log_interaction t).request_backlog =
      s.request_backlog.filter (fun r => !(sweepCond t r)) := rfl
  have hmap : (s.log_interaction t).request_to_interaction =
      (s.request_backlog.filter (sweepCond t)).foldl
        (fun m r => updateAssoc m r.id s.interactions.length) s.request_to_interaction := rfl
  have hpw : (s.log_interaction t).playwright_to_logged = s.playwright_to_logged := rfl
  constructor
  · -- resp_req
    intro itc hitc resp hresp
    rw [hints, List.mem_append, List.mem_singleton] at hitc
    rcases hitc with h' | h'
    · exact h.resp_req itc h' resp hresp
    · subst h'; simp at hresp
  · -- timing
    intro itc hitc r hr
    rw [hints, List.mem_append, List.mem_singleton] at hitc
    rcases hitc with h' | h'
    · exact h.timing itc h' r hr
    · subst h'
      simp only at hr
      have := (sweepCond_iff.mp (List.of_mem_filter hr)).2
      exact .inl this
  · -- map_sound
    intro k i hk
    rw [hmap, lookupAssoc_foldl_update] at hk
    by_cases hmem : k ∈ (s.request_backlog.filter (sweepCond t)).map LoggedRequest.id
    · rw [if_pos hmem] at hk
      obtain rfl : s.interactions.length = i := by injection hk
      refine ⟨⟨t, s.request_backlog.filter (sweepCond t), []⟩, ?_, ?_⟩
      · rw [hints, List.getElem?_concat_length]
      · obtain ⟨r, hr, hrid⟩ := List.mem_map.mp hmem
        exact ⟨r, hr, hrid⟩
    · rw [if_neg hmem] at hk
      obtain ⟨itc, hitc, r, hr, hrid⟩ := h.map_sound k i hk
      refine ⟨itc, ?_, r, hr, hrid⟩
      rw [hints, List.getElem?_append_left (getElem?_some_lt hitc)]
      exact hitc
  · -- list_map
    intro i itc hitc r hr
    rw [hints, getElem?_append_singleton] at hitc
    rw [hmap, lookupAssoc_foldl_update]
    by_cases h1 : i < s.interactions.length
    · rw [if_pos h1] at hitc
      have hold := h.list_map i itc hitc r hr
      have hnot : r.id ∉ (s.request_backlog.filter (sweepCond t)).map LoggedRequest.id := by
        intro hin
        obtain ⟨r', hr', hrid⟩ := List.mem_map.mp hin
        have hr'bl : r' ∈ s.request_backlog := List.mem_of_mem_filter hr'
        have hmem1 : r' ∈ mentionedRequests s := mem_mentioned.mpr (.inl hr'bl)
        have hmem2 : r ∈ mentionedRequests s :=
          mem_mentioned.mpr (.inr (.inr ⟨itc, List.getElem?_mem hitc, hr⟩))
        have : r' = r := h.inj r' r hmem1 hmem2 hrid
        subst this
        exact h.backlog_free r' hr'bl itc (List.getElem?_mem hitc) hr
      rw [if_neg hnot]
      exact hold
    · rw [if_neg h1] at hitc
      by_cases h2 : i = s.interactions.length
      · rw [if_pos h2] at hitc
        obtain rfl : (⟨t, s.request_backlog.filter (sweepCond t), []⟩ : InteractionRec) = itc := by
          injection hitc
        have : r.id ∈ (s.request_backlog.filter (sweepCond t)).map LoggedRequest.id :=
          List.mem_map.mpr ⟨r, hr, rfl⟩
        rw [if_pos this, h2]
      · rw [if_neg h2] at hitc
        exact absurd hitc (by simp)
  · -- inj
    intro r1 r2 h1 h2 hid
    exact h.inj r1 r2 (mentioned_log_interaction h1) (mentioned_log_interaction h2) hid
  · -- backlog_free
    intro r hr itc hitc hmem
    rw [hbl] at hr
    rw [hints, List.mem_append, List.mem_singleton] at hitc
    have hrbl : r ∈ s.request_backlog := List.mem_of_mem_filter hr
    rcases hitc with h' | h'
    · exact h.backlog_free r hrbl itc h' hmem
    · subst h'
      simp only at hmem
      have hsw : sweepCond t r = true := List.of_mem_filter hmem
      have hnsw := List.of_mem_filter hr
      rw [hsw] at hnsw
      simp at hnsw
  · -- count_le
    intro itc hitc r
    rw [hints, List.mem_append, List.mem_singleton] at hitc
    rcases hitc with h' | h'
    · exact h.count_le itc h' r
    · subst h'
      simp only
      calc (s.request_backlog.filter (sweepCond t)).count r
          ≤ s.request_backlog.count r := (List.filter_sublist _).count_le r
        _ ≤ 1 := List.nodup_iff_count_le_one.mp h.backlog_nodup r
        _ ≤ 2 := by omega
  · -- backlog_nodup
    rw [hbl]
    exact h.backlog_nodup.filter _
  · -- backlog_post
    intro r hr
    rw [hbl] at hr
    exact h.backlog_post r (List.mem_of_mem_filter hr)
  · -- req_post
    intro itc hitc r hr
    rw [hints, List.mem_append, List.mem_singleton] at hitc
    rcases hitc with h' | h'
    · exact h.req_post itc h' r hr
    · subst h'
      simp only at hr
      exact (sweepCond_iff.mp (List.of_mem_filter hr)).1

/-! ### Preservation by attaching to the current interaction -/

theorem eq_dropLast_concat_of_getLast? {α : Type} {l : List α} {a : α}
    (h : l.getLast? = some a) : l = l.dropLast ++ [a] := by
  have hne : l ≠ [] := by
    intro hl; subst hl; simp at h
  have h2 := List.getLast?_eq_getLast l hne
  rw [h2] at h
  have h3 : l.getLast hne = a := by injection h
  rw [← h3]
  exact (List.dropLast_concat_getLast hne).symm

theorem dropLast_subset_self {α : Type} (l : List α) : ∀ a ∈ l.dropLast, a ∈ l := by
  intro a ha
  rw [List.dropLast_eq_take] at ha
  exact List.mem_of_mem_take ha

theorem getElem?_dropLast_of_lt {α : Type} {l : List α} {i : Nat} (h : i < l.length - 1) :
    l.dropLast[i]? = l[i]? := by
  rw [List.dropLast_eq_take]
  exact List.getElem?_take_of_lt h

theorem getElem?_last_of_getLast? {α : Type} {l : List α} {a : α}
    (h : l.getLast? = some a) : l[l.length - 1]? = some a := by
  have he := eq_dropLast_concat_of_getLast? h
  have hstep : (l.dropLast ++ [a])[l.dropLast.length]? = some a :=
    List.getElem?_concat_length _ _
  rw [← he] at hstep
  have hlen : l.length - 1 = l.dropLast.length := by simp
  rw [hlen]
  exact hstep

theorem mentioned_attachCurrent {s : InteractionLogger} {r r' : LoggedRequest}
    (h : r' ∈ mentionedRequests (attachCurrent s r)) :
    r' ∈ mentionedRequests s ∨ r' = r := by
  rw [mem_mentioned] at h
  rcases h with h | h | h
  · exact .inl (mem_mentioned.mpr (.inl h))
  · exact .inl (mem_mentioned.mpr (.inr (.inl h)))
  · obtain ⟨itc, hitc, hmem⟩ := h
    simp only [attachCurrent] at hitc
    cases hl : s.interactions.getLast? with
    | none =>
      rw [List.getLast?_eq_none_iff.mp hl] at hitc
      simp [attachToLast] at hitc
    | some last =>
      rw [attachToLast_eq hl, List.mem_append, List.mem_singleton] at hitc
      rcases hitc with h' | h'
      · exact .inl (mem_mentioned.mpr (.inr (.inr
          ⟨itc, dropLast_subset_self _ _ h', hmem⟩)))
      · subst h'
        simp only [List.mem_append, List.mem_singleton] at hmem
        rcases hmem with h'' | h''
        · exact .inl (mem_mentioned.mpr (.inr (.inr
            ⟨last, List.mem_of_getLast?_eq_some hl, h''⟩)))
        · exact .inr h''

theorem inv_attachCurrent {s : InteractionLogger} (h : Inv s) {r : LoggedRequest}
    {last : InteractionRec}
    (hlast : s.interactions.getLast? = some last)
    (htime : r.timestamp - last.timestamp < 2)
    (hpost : r.method = "POST")
    (hbl : r ∉ s.request_backlog)
    (honly : ∀ i itc, s.interactions[i]? = some itc → r ∈ itc.requests →
      i = s.interactions.length - 1)
    (hcount : last.requests.count r ≤ 1)
    (hid : ∀ r' ∈ mentionedRequests s, r'.id = r.id → r' = r) :
    Inv (attachCurrent s r) := by
  have hlastmem : last ∈ s.interactions := List.mem_of_getLast?_eq_some hlast
  have hne : s.interactions ≠ [] := by
    intro hl; rw [hl] at hlast; simp at hlast
  have hlen1 : 0 < s.interactions.length := List.length_pos.mpr hne
  have hints : (attachCurrent s r).interactions =
      s.interactions.dropLast ++ [{ last with requests := last.requests ++ [r] }] := by
    simp only [attachCurrent]
    exact attachToLast_eq hlast r
  have hmap : (attachCurrent s r).request_to_interaction =
      updateAssoc s.request_to_interaction r.id (s.interactions.length - 1) := rfl
  have hbleq : (attachCurrent s r).request_backlog = s.request_backlog := rfl
  have hpweq : (attachCurrent s r).playwright_to_logged = s.playwright_to_logged := rfl
  have hlastidx : s.interactions[s.interactions.length - 1]? = some last :=
    getElem?_last_of_getLast? hlast
  -- membership in the new interaction list
  have hmem_int : ∀ itc, itc ∈ (attachCurrent s r).interactions →
      itc ∈ s.interactions ∨ itc = { last with requests := last.requests ++ [r] } := by
    intro itc hitc
    rw [hints, List.mem_append, List.mem_singleton] at hitc
    rcases hitc with h' | h'
    · exact .inl (dropLast_subset_self _ _ h')
    · exact .inr h'
  have hdropLen : s.interactions.dropLast.length = s.interactions.length - 1 := by simp
  constructor
  · -- resp_req
    intro itc hitc resp hresp
    rcases hmem_int itc hitc with h' | h'
    · exact h.resp_req itc h' resp hresp
    · subst h'
      simp only at hresp ⊢
      exact List.mem_append_left _ (h.resp_req last hlastmem resp hresp)
  · -- timing
    intro itc hitc r' hr'
    rcases hmem_int itc hitc with h' | h'
    · exact h.timing itc h' r' hr'
    · subst h'
      simp only [List.mem_append, List.mem_singleton] at hr'
      rcases hr' with h'' | h''
      · exact h.timing last hlastmem r' h''
      · subst h''
        exact .inr htime
  · -- map_sound
    intro k i hk
    rw [hmap] at hk
    by_cases hkr : k = r.id
    · subst hkr
      rw [lookupAssoc_update_self] at hk
      obtain rfl : s.interactions.length - 1 = i := by injection hk
      refine ⟨{ last with requests := last.requests ++ [r] }, ?_, r, by simp, rfl⟩
      rw [hints, ← hdropLen, List.getElem?_concat_length]
    · rw [lookupAssoc_update_ne _ _ _ _ hkr] at hk
      obtain ⟨itc, hitc, r', hr', hrid⟩ := h.map_sound k i hk
      by_cases hi : i < s.interactions.length - 1
      · refine ⟨itc, ?_, r', hr', hrid⟩
        rw [hints, List.getElem?_append_left (by rw [hdropLen]; exact hi),
          getElem?_dropLast_of_lt hi]
        exact hitc
      · have hile : i < s.interactions.length := getElem?_some_lt hitc
        have hieq : i = s.interactions.length - 1 := by omega
        subst hieq
        rw [hlastidx] at hitc
        obtain rfl : last = itc := by injection hitc
        refine ⟨{ last with requests := last.requests ++ [r] }, ?_, r',
          List.mem_append_left _ hr', hrid⟩
        rw [hints, ← hdropLen, List.getElem?_concat_length]
  · -- list_map
    intro i itc hitc r' hr'
    rw [hints, getElem?_append_singleton, hdropLen] at hitc
    rw [hmap]
    by_cases h1 : i < s.interactions.length - 1
    · rw [if_pos h1, getElem?_dropLast_of_lt h1] at hitc
      have hitcmem : itc ∈ s.interactions := List.getElem?_mem hitc
      by_cases hrid : r'.id = r.id
      · have : r' = r := hid r' (mem_mentioned.mpr (.inr (.inr ⟨itc, hitcmem, hr'⟩))) hrid
        subst this
        have := honly i itc hitc hr'
        omega
      · rw [lookupAssoc_update_ne _ _ _ _ hrid]
        exact h.list_map i itc hitc r' hr'
    · rw [if_neg h1] at hitc
      by_cases h2 : i = s.interactions.length - 1
      · rw [if_pos h2] at hitc
        obtain rfl : ({ last with requests := last.requests ++ [r] } : InteractionRec) = itc := by
          injection hitc
        simp only [List.mem_append, List.mem_singleton] at hr'
        rcases hr' with h'' | h''
        · by_cases hrid : r'.id = r.id
          · rw [hrid, lookupAssoc_update_self, h2]
          · rw [lookupAssoc_update_ne _ _ _ _ hrid, h2]
            exact h.list_map _ last hlastidx r' h''
        · subst h''
          rw [lookupAssoc_update_self, h2]
      · rw [if_neg h2] at hitc
        exact absurd hitc (by simp)
  · -- inj
    intro r1 r2 h1 h2 hidq
    rcases mentioned_attachCurrent h1 with h1' | h1' <;>
      rcases mentioned_attachCurrent h2 with h2' | h2'
    · exact h.inj r1 r2 h1' h2' hidq
    · subst h2'
      exact hid r1 h1' hidq
    · subst h1'
      exact (hid r2 h2' hidq.symm).symm
    · rw [h1', h2']
  · -- backlog_free
    intro r'' hr'' itc hitc hmem
    rw [hbleq] at hr''
    rcases hmem_int itc hitc with h' | h'
    · exact h.backlog_free r'' hr'' itc h' hmem
    · subst h'
      simp only [List.mem_append, List.mem_singleton] at hmem
      rcases hmem with h'' | h''
      · exact h.backlog_free r'' hr'' last hlastmem h''
      · subst h''
        exact hbl hr''
  · -- count_le
    intro itc hitc r''
    rcases hmem_int itc hitc with h' | h'
    · exact h.count_le itc h' r''
    · subst h'
      simp only [List.count_append]
      by_cases hreq : r'' = r
      · subst hreq
        have : List.count r'' [r''] = 1 := List.count_singleton_self r''
        omega
      · have : List.count r'' [r] = 0 := by
          simp [List.count_singleton, hreq]
        have h2 := h.count_le last hlastmem r''
        omega
  · -- backlog_nodup
    rw [hbleq]; exact h.backlog_nodup
  · -- backlog_post
    intro r'' hr''
    rw [hbleq] at hr''
    exact h.backlog_post r'' hr''
  · -- req_post
    intro itc hitc r' hr'
    rcases hmem_int itc hitc with h' | h'
    · exact h.req_post itc h' r' hr'
    · subst h'
      simp only [List.mem_append, List.mem_singleton] at hr'
      rcases hr' with h'' | h''
      · exact h.req_post last hlastmem r' h''
      · subst h''; exact hpost

/-! ### Preservation by the remaining request/response steps -/

theorem forwardCond_eq_true {ints : List InteractionRec} {tr : ℚ} :
    forwardCond ints tr = true ↔
      ∃ last, ints.getLast? = some last ∧ tr - 2 < last.timestamp := by
  unfold forwardCond
  cases h : ints.getLast? with
  | none => simp
  | some last => simp

theorem directAddCond_eq_true {ints : List InteractionRec} {now : ℚ} :
    directAddCond ints now = true ↔
      ∃ last, ints.getLast? = some last ∧ now - last.timestamp < 2 := by
  unfold directAddCond
  cases h : ints.getLast? with
  | none => simp
  | some last => simp

/-- If the look-forward window of `add_request` missed, then the direct-add
window of `on_request` misses too, provided the clock did not go backwards. -/
theorem forward_false_direct_false {ints : List InteractionRec} {tr now : ℚ}
    (hle : tr ≤ now) (hf : forwardCond ints tr = false) :
    directAddCond ints now = false := by
  cases h : ints.getLast? with
  | none => simp [directAddCond, h]
  | some last =>
    simp only [forwardCond, h, decide_eq_false_iff_not, not_lt] at hf
    simp only [directAddCond, h, decide_eq_false_iff_not, not_lt]
    linarith

theorem freshId_not_mem_backlog {s : InteractionLogger} {r : LoggedRequest}
    (hfresh : freshId s r.id) : r ∉ s.request_backlog := by
  intro hr
  exact hfresh r (mem_mentioned.mpr (.inl hr)) rfl

theorem freshId_not_attributed {s : InteractionLogger} {r : LoggedRequest}
    (hfresh : freshId s r.id) : ∀ itc ∈ s.interactions, r ∉ itc.requests := by
  intro itc hitc hr
  exact hfresh r (mem_mentioned.mpr (.inr (.inr ⟨itc, hitc, hr⟩))) rfl

theorem freshId_hid {s : InteractionLogger} {r : LoggedRequest}
    (hfresh : freshId s r.id) : ∀ r' ∈ mentionedRequests s, r'.id = r.id → r' = r := by
  intro r' hr' hid
  exact absurd hid (hfresh r' hr')

theorem mentioned_pwUpdate {s : InteractionLogger} {r r' : LoggedRequest}
    (h : r' ∈ mentionedRequests
      { s with playwright_to_logged := updateAssoc s.playwright_to_logged r.rawId r }) :
    r' ∈ mentionedRequests s ∨ r' = r := by
  rw [mem_mentioned] at h
  rcases h with h | h | h
  · exact .inl (mem_mentioned.mpr (.inl h))
  · obtain ⟨p, hp, hpr⟩ := h
    rcases mem_updateAssoc hp with h' | h'
    · subst h'
      exact .inr hpr.symm
    · exact .inl (mem_mentioned.mpr (.inr (.inl ⟨p, h', hpr⟩)))
  · exact .inl (mem_mentioned.mpr (.inr (.inr h)))

/-- Registering the raw-handle mapping preserves the invariant (only the
`playwright_to_logged` component changes). -/
theorem inv_pwUpdate {s : InteractionLogger} (h : Inv s) {r : LoggedRequest}
    (hid : ∀ r' ∈ mentionedRequests s, r'.id = r.id → r' = r) :
    Inv { s with playwright_to_logged := updateAssoc s.playwright_to_logged r.rawId r } := by
  constructor
  · exact h.resp_req
  · exact h.timing
  · exact h.map_sound
  · exact h.list_map
  · intro r1 r2 h1 h2 hq
    rcases mentioned_pwUpdate h1 with h1' | h1' <;> rcases mentioned_pwUpdate h2 with h2' | h2'
    · exact h.inj r1 r2 h1' h2' hq
    · subst h2'; exact hid r1 h1' hq
    · subst h1'; exact (hid r2 h2' hq.symm).symm
    · rw [h1', h2']
  · exact h.backlog_free
  · exact h.count_le
  · exact h.backlog_nodup
  · exact h.backlog_post
  · exact h.req_post

/-- Pushing a not-yet-held POST request onto the backlog preserves the
invariant. -/
theorem inv_backlogAppend {s : InteractionLogger} (h : Inv s) {r : LoggedRequest}
    (hpost : r.method = "POST")
    (hbl : r ∉ s.request_backlog)
    (hfree : ∀ itc ∈ s.interactions, r ∉ itc.requests)
    (hid : ∀ r' ∈ mentionedRequests s, r'.id = r.id → r' = r) :
    Inv { s with request_backlog := s.request_backlog ++ [r] } := by
  have hment : ∀ r', r' ∈ mentionedRequests { s with request_backlog := s.request_backlog ++ [r] } →
      r' ∈ mentionedRequests s ∨ r' = r := by
    intro r' h'
    rw [mem_mentioned] at h'
    rcases h' with h' | h' | h'
    · rcases List.mem_append.mp h' with h'' | h''
      · exact .inl (mem_mentioned.mpr (.inl h''))
      · exact .inr (List.mem_singleton.mp h'')
    · exact .inl (mem_mentioned.mpr (.inr (.inl h')))
    · exact .inl (mem_mentioned.mpr (.inr (.inr h')))
  constructor
  · exact h.resp_req
  · exact h.timing
  · exact h.map_sound
  · exact h.list_map
  · intro r1 r2 h1 h2 hq
    rcases hment r1 h1 with h1' | h1' <;> rcases hment r2 h2 with h2' | h2'
    · exact h.inj r1 r2 h1' h2' hq
    · subst h2'; exact hid r1 h1' hq
    · subst h1'; exact (hid r2 h2' hq.symm).symm
    · rw [h1', h2']
  · intro r' hr' itc hitc hmem
    rcases List.mem_append.mp hr' with h'' | h''
    · exact h.backlog_free r' h'' itc hitc hmem
    · rw [List.mem_singleton] at h''
      subst h''
      exact hfree itc hitc hmem
  · exact h.count_le
  · refine List.Nodup.append h.backlog_nodup (List.nodup_singleton r) ?_
    intro a ha hb
    rw [List.mem_singleton] at hb
    subst hb
    exact hbl ha
  · intro r' hr'
    rcases List.mem_append.mp hr' with h'' | h''
    · exact h.backlog_post r' h''
    · rw [List.mem_singleton] at h''
      subst h''
      exact hpost
  · exact h.req_post

/-- The `on_request` handler preserves the invariant, for a request with a
fresh `uuid4` id and a consistent clock. -/
theorem inv_on_request {s : InteractionLogger} (h : Inv s) {r : LoggedRequest} {now : ℚ}
    (hfresh : freshId s r.id) (hnow : r.timestamp ≤ now) :
    Inv (on_request s r now) := by
  by_cases hm : r.method = "POST"
  · rw [on_request, if_neg (by simp [hm])]
    show Inv (if directAddCond (s.add_request r).interactions now then
      attachCurrent (s.add_request r) r else s.add_request r)
    set s' : InteractionLogger := { s with playwright_to_logged := updateAssoc s.playwright_to_logged r.rawId r } with hs'
    have hid' := freshId_hid hfresh
    have hinv' : Inv s' := inv_pwUpdate h hid'
    have hid'' : ∀ r' ∈ mentionedRequests s', r'.id = r.id → r' = r := by
      intro r' hr' hq
      rcases mentioned_pwUpdate hr' with h' | h'
      · exact hid' r' h' hq
      · exact h'
    have hbl' : r ∉ s.request_backlog := freshId_not_mem_backlog hfresh
    have hfree' : ∀ itc ∈ s.interactions, r ∉ itc.requests := freshId_not_attributed hfresh
    by_cases hf : forwardCond s.interactions r.timestamp = true
    · -- look-forward branch
      have hadd : s.add_request r = attachCurrent s' r := by
        show (if forwardCond s.interactions r.timestamp then _ else _) = _
        rw [if_pos hf]
      obtain ⟨last, hlast, htime⟩ := forwardCond_eq_true.mp hf
      have htime' : r.timestamp - last.timestamp < 2 := by linarith
      have honly1 : ∀ i itc, s'.interactions[i]? = some itc →
          r ∈ itc.requests → i = s'.interactions.length - 1 := by
        intro i itc hitc hmem
        exact absurd hmem (hfree' itc (List.getElem?_mem hitc))
      have hcount1 : last.requests.count r ≤ 1 := by
        rw [List.count_eq_zero_of_not_mem
          (hfree' last (List.mem_of_getLast?_eq_some hlast))]
        omega
      have hlast' : s'.interactions.getLast? = some last := hlast
      have hinv1 : Inv (attachCurrent s' r) :=
        inv_attachCurrent hinv' hlast' htime' hm hbl' honly1 hcount1 hid''
      rw [hadd]
      set s2 : InteractionLogger := attachCurrent s' r with hs2
      by_cases hd : directAddCond s2.interactions now = true
      · rw [if_pos hd]
        have hints2 : s2.interactions = s.interactions.dropLast ++
            [{ last with requests := last.requests ++ [r] }] := by
          rw [hs2]
          exact attachToLast_eq hlast r
        have hlast2 : s2.interactions.getLast? =
            some { last with requests := last.requests ++ [r] } := by
          rw [hints2]
          exact List.getLast?_concat _
        have hlen2 : s2.interactions.length = s.interactions.length := by
          rw [hs2]
          exact length_attachToLast _ _
        have honly2 : ∀ i itc, s2.interactions[i]? = some itc →
            r ∈ itc.requests → i = s2.interactions.length - 1 := by
          intro i itc hitc hmem
          rw [hints2, getElem?_append_singleton] at hitc
          by_cases h1 : i < s.interactions.dropLast.length
          · rw [if_pos h1] at hitc
            have h2 : i < s.interactions.length - 1 := by
              simpa using h1
            rw [getElem?_dropLast_of_lt h2] at hitc
            exact absurd hmem (hfree' itc (List.getElem?_mem hitc))
          · rw [if_neg h1] at hitc
            by_cases h2 : i = s.interactions.dropLast.length
            · rw [hlen2]
              simpa using h2
            · rw [if_neg h2] at hitc
              exact absurd hitc (by simp)
        have hcount2 : ({ last with requests := last.requests ++ [r] } :
            InteractionRec).requests.count r ≤ 1 := by
          simp only [List.count_append]
          rw [List.count_eq_zero_of_not_mem
            (hfree' last (List.mem_of_getLast?_eq_some hlast))]
          simp [List.count_singleton_self]
        have htime2 : r.timestamp -
            ({ last with requests := last.requests ++ [r] } :
              InteractionRec).timestamp < 2 := htime'
        have hbl2 : r ∉ s2.request_backlog := hbl'
        have hid2 : ∀ r' ∈ mentionedRequests s2, r'.id = r.id → r' = r := by
          intro r' hr' hq
          rcases mentioned_attachCurrent hr' with h' | h'
          · exact hid'' r' h' hq
          · exact h'
        exact inv_attachCurrent hinv1 hlast2 htime2 hm hbl2 honly2 hcount2 hid2
      · rw [if_neg hd]
        exact hinv1
    · -- backlog branch
      have hadd : s.add_request r = { s' with request_backlog := s'.request_backlog ++ [r] } := by
        show (if forwardCond s.interactions r.timestamp then _ else _) = _
        rw [if_neg (by simpa using hf)]
      rw [hadd]
      have hd : directAddCond s.interactions now = false :=
        forward_false_direct_false hnow (by simpa using hf)
      rw [if_neg (by simp [hd])]
      exact inv_backlogAppend hinv' hm hbl' hfree' hid''
  · rw [on_request, if_pos (by simpa using hm)]
    exact h

/-- `add_response` preserves the invariant: the attached response's request is
the one registered in the raw-handle map, and by map soundness plus id
injectivity it already sits in the target interaction's request list. -/
theorem inv_add_response {s : InteractionLogger} (h : Inv s) (rawId : Nat) (t : ℚ)
    (status : Nat) : Inv (s.add_response rawId t status) := by
  cases hpw : lookupAssoc s.playwright_to_logged rawId with
  | none =>
    simp only [InteractionLogger.add_response, hpw]
    exact h
  | some r =>
    cases hattr : lookupAssoc s.request_to_interaction r.id with
    | none =>
      simp only [InteractionLogger.add_response, hpw, hattr]
      exact h
    | some i =>
      cases hitc : s.interactions[i]? with
      | none =>
        simp only [InteractionLogger.add_response, hpw, hattr, hitc]
        exact h
      | some itc =>
        set itc' : InteractionRec := { itc with responses := itc.responses ++ [⟨t, status, r⟩] } with hitc'
        have heq : s.add_response rawId t status = { s with interactions := s.interactions.set i itc' } := by
          simp only [InteractionLogger.add_response, hpw, hattr, hitc]
        rw [heq]
        have hlen : i < s.interactions.length := getElem?_some_lt hitc
        have hitcmem : itc ∈ s.interactions := List.getElem?_mem hitc
        have hreq_eq : itc'.requests = itc.requests := rfl
        have hmem_int : ∀ x, x ∈ s.interactions.set i itc' → x ∈ s.interactions ∨ x = itc' :=
          fun x hx => List.mem_or_eq_of_mem_set hx
        have hment : ∀ r', r' ∈ mentionedRequests { s with interactions := s.interactions.set i itc' } → r' ∈ mentionedRequests s := by
          intro r' hr'
          rw [mem_mentioned] at hr' ⊢
          rcases hr' with h' | h' | h'
          · exact .inl h'
          · exact .inr (.inl h')
          · obtain ⟨x, hx, hrx⟩ := h'
            rcases hmem_int x hx with h'' | h''
            · exact .inr (.inr ⟨x, h'', hrx⟩)
            · subst h''
              exact .inr (.inr ⟨itc, hitcmem, hrx⟩)
        -- the response's request is attached to the target interaction
        have hr_in : r ∈ itc.requests := by
          obtain ⟨itc0, hitc0, r', hr', hrid⟩ := h.map_sound r.id i hattr
          rw [hitc] at hitc0
          obtain rfl : itc = itc0 := by injection hitc0
          have hrment : r ∈ mentionedRequests s := by
            rw [mem_mentioned]
            exact .inr (.inl ⟨(rawId, r), lookupAssoc_mem hpw, rfl⟩)
          have hr'ment : r' ∈ mentionedRequests s := by
            rw [mem_mentioned]
            exact .inr (.inr ⟨itc, hitcmem, hr'⟩)
          have : r' = r := h.inj r' r hr'ment hrment hrid
          rwa [← this]
        constructor
        · -- resp_req
          intro x hx resp hresp
          rcases hmem_int x hx with h' | h'
          · exact h.resp_req x h' resp hresp
          · subst h'
            simp only [hitc', List.mem_append, List.mem_singleton] at hresp
            rcases hresp with h'' | h''
            · exact h.resp_req itc hitcmem resp h''
            · subst h''
              exact hr_in
        · -- timing
          intro x hx r' hr'
          rcases hmem_int x hx with h' | h'
          · exact h.timing x h' r' hr'
          · subst h'
            exact h.timing itc hitcmem r' hr'
        · -- map_sound
          intro k j hk
          obtain ⟨itc0, hitc0, r', hr', hrid⟩ := h.map_sound k j hk
          by_cases hij : i = j
          · subst hij
            rw [hitc] at hitc0
            obtain rfl : itc = itc0 := by injection hitc0
            exact ⟨itc', by simp [List.getElem?_set_self hlen], r', hr', hrid⟩
          · exact ⟨itc0, by rw [show (s.interactions.set i itc')[j]? = s.interactions[j]? from List.getElem?_set_ne hij]; exact hitc0, r', hr', hrid⟩
        · -- list_map
          intro j x hx r' hr'
          by_cases hij : i = j
          · subst hij
            rw [List.getElem?_set_self hlen] at hx
            obtain rfl : itc' = x := by injection hx
            exact h.list_map i itc hitc r' hr'
          · rw [List.getElem?_set_ne hij] at hx
            exact h.list_map j x hx r' hr'
        · -- inj
          intro r1 r2 h1 h2 hq
          exact h.inj r1 r2 (hment r1 h1) (hment r2 h2) hq
        · -- backlog_free
          intro r' hr' x hx hmem
          rcases hmem_int x hx with h' | h'
          · exact h.backlog_free r' hr' x h' hmem
          · subst h'
            exact h.backlog_free r' hr' itc hitcmem hmem
        · -- count_le
          intro x hx r'
          rcases hmem_int x hx with h' | h'
          · exact h.count_le x h' r'
          · subst h'
            exact h.count_le itc hitcmem r'
        · exact h.backlog_nodup
        · exact h.backlog_post
        · -- req_post
          intro x hx r' hr'
          rcases hmem_int x hx with h' | h'
          · exact h.req_post x h' r' hr'
          · subst h'
            exact h.req_post itc hitcmem r' hr'

theorem inv_on_response {s : InteractionLogger} (h : Inv s) (rawMethod : String)
    (rawId : Nat) (t : ℚ) (status : Nat) :
    Inv (on_response s rawMethod rawId t status) := by
  rw [on_response]
  split
  · exact h
  · exact inv_add_response h rawId t status

/-! ### The invariant holds on every well-formed trace -/

theorem mentioned_backlogAppend {s : InteractionLogger} {r r' : LoggedRequest}
    (h : r' ∈ mentionedRequests { s with request_backlog := s.request_backlog ++ [r] }) :
    r' ∈ mentionedRequests s ∨ r' = r := by
  rw [mem_mentioned] at h
  rcases h with h | h | h
  · rcases List.mem_append.mp h with h' | h'
    · exact .inl (mem_mentioned.mpr (.inl h'))
    · exact .inr (List.mem_singleton.mp h')
  · exact .inl (mem_mentioned.mpr (.inr (.inl h)))
  · exact .inl (mem_mentioned.mpr (.inr (.inr h)))

theorem mentioned_add_response {s : InteractionLogger} {rawId : Nat} {t : ℚ} {status : Nat}
    {r' : LoggedRequest} (h : r' ∈ mentionedRequests (s.add_response rawId t status)) :
    r' ∈ mentionedRequests s := by
  cases hpw : lookupAssoc s.playwright_to_logged rawId with
  | none =>
    simpa only [InteractionLogger.add_response, hpw] using h
  | some r =>
    cases hattr : lookupAssoc s.request_to_interaction r.id with
    | none =>
      simpa only [InteractionLogger.add_response, hpw, hattr] using h
    | some i =>
      cases hitc : s.interactions[i]? with
      | none =>
        simpa only [InteractionLogger.add_response, hpw, hattr, hitc] using h
      | some itc =>
        have heq : s.add_response rawId t status = { s with interactions := s.interactions.set i { itc with responses := itc.responses ++ [⟨t, status, r⟩] } } := by
          simp only [InteractionLogger.add_response, hpw, hattr, hitc]
        rw [heq] at h
        rw [mem_mentioned] at h ⊢
        rcases h with h | h | h
        · exact .inl h
        · exact .inr (.inl h)
        · obtain ⟨x, hx, hrx⟩ := h
          rcases List.mem_or_eq_of_mem_set hx with h' | h'
          · exact .inr (.inr ⟨x, h', hrx⟩)
          · subst h'
            exact .inr (.inr ⟨itc, List.getElem?_mem hitc, hrx⟩)

theorem mentioned_on_response {s : InteractionLogger} {rawMethod : String} {rawId : Nat}
    {t : ℚ} {status : Nat} {r' : LoggedRequest}
    (h : r' ∈ mentionedRequests (on_response s rawMethod rawId t status)) :
    r' ∈ mentionedRequests s := by
  rw [on_response] at h
  split at h
  · exact h
  · exact mentioned_add_response h

theorem mentioned_on_request {s : InteractionLogger} {r r' : LoggedRequest} {now : ℚ}
    (h : r' ∈ mentionedRequests (on_request s r now)) :
    r' ∈ mentionedRequests s ∨ r' = r := by
  rw [on_request] at h
  by_cases hm : r.method = "POST"
  · rw [if_neg (by simp [hm])] at h
    have hstep : ∀ s0 : InteractionLogger,
        r' ∈ mentionedRequests (s0.add_request r) → r' ∈ mentionedRequests s0 ∨ r' = r := by
      intro s0 h0
      rw [InteractionLogger.add_request] at h0
      split at h0
      · rcases mentioned_attachCurrent h0 with h1 | h1
        · rcases mentioned_pwUpdate h1 with h2 | h2
          · exact .inl h2
          · exact .inr h2
        · exact .inr h1
      · rcases mentioned_backlogAppend h0 with h1 | h1
        · rcases mentioned_pwUpdate h1 with h2 | h2
          · exact .inl h2
          · exact .inr h2
        · exact .inr h1
    have h2 : r' ∈ mentionedRequests (if directAddCond (s.add_request r).interactions now = true
        then attachCurrent (s.add_request r) r else s.add_request r) := h
    split at h2
    · rcases mentioned_attachCurrent h2 with h1 | h1
      · exact hstep s h1
      · exact .inr h1
    · exact hstep s h2
  · rw [if_pos (by simpa using hm)] at h
    exact .inl h

theorem mentioned_stepEvent {s : InteractionLogger} {e : Event} {r' : LoggedRequest}
    (h : r' ∈ mentionedRequests (stepEvent s e)) :
    r' ∈ mentionedRequests s ∨ (∃ k, e.reqId? = some k ∧ r'.id = k) := by
  cases e with
  | interaction t =>
    exact .inl (mentioned_log_interaction h)
  | request k rawId t now method url pd =>
    rcases mentioned_on_request h with h1 | h1
    · exact .inl h1
    · exact .inr ⟨k, rfl, by rw [h1]⟩
  | response m rawId t status =>
    exact .inl (mentioned_on_response h)

theorem inv_stepEvent {s : InteractionLogger} (h : Inv s) {e : Event}
    (hfresh : ∀ k, e.reqId? = some k → freshId s k)
    (htc : e.timeConsistent) :
    Inv (stepEvent s e) := by
  cases e with
  | interaction t => exact h.log_interaction t
  | request k rawId t now method url pd =>
    exact inv_on_request h (hfresh k rfl) htc
  | response m rawId t status => exact inv_on_response h m rawId t status

theorem inv_foldl (es : List Event) : ∀ s : InteractionLogger, Inv s →
    (es.filterMap Event.reqId?).Nodup →
    (∀ k ∈ es.filterMap Event.reqId?, ∀ r ∈ mentionedRequests s, r.id ≠ k) →
    (∀ e ∈ es, e.timeConsistent) →
    Inv (es.foldl stepEvent s) := by
  induction es with
  | nil =>
    intro s hs _ _ _
    exact hs
  | cons e rest ih =>
    intro s hs hnodup hdisj htc
    rw [List.foldl_cons]
    have hstep : Inv (stepEvent s e) := by
      apply inv_stepEvent hs
      · intro k hk
        intro r hr
        exact hdisj k (by simp [List.filterMap_cons, hk]) r hr
      · exact htc e (List.mem_cons_self e rest)
    apply ih (stepEvent s e) hstep
    · have hsub : List.Sublist (rest.filterMap Event.reqId?)
          ((e :: rest).filterMap Event.reqId?) := by
        rw [List.filterMap_cons]
        cases Event.reqId? e
        · exact List.Sublist.refl _
        · exact List.sublist_cons_self _ _
      exact hnodup.sublist hsub
    · intro k hk r hr
      rcases mentioned_stepEvent hr with h1 | h1
      · refine hdisj k ?_ r h1
        rw [List.filterMap_cons]
        cases Event.reqId? e
        · exact hk
        · exact List.mem_cons_of_mem _ hk
      · obtain ⟨k', hk', hrk'⟩ := h1
        rw [hrk']
        intro hkk
        subst hkk
        have hkhead : k' ∈ (e :: rest).filterMap Event.reqId? := by
          rw [List.filterMap_cons, hk']
          exact List.mem_cons_self _ _
        have : ((e :: rest).filterMap Event.reqId?).Nodup := hnodup
        rw [List.filterMap_cons, hk'] at this
        exact (List.nodup_cons.mp this).1 hk
    · intro e' he'
      exact htc e' (List.mem_cons_of_mem _ he')

/-- On every well-formed trace the correlator invariant holds. -/
theorem inv_runTrace (es : List Event) (hwf : WFTrace es) : Inv (runTrace es) := by
  obtain ⟨hnodup, htc⟩ := hwf
  refine inv_foldl es .init Inv.init hnodup ?_ htc
  intro k _ r hr
  simp [InteractionLogger.init, mentionedRequests, allRequests] at hr

/-! ### POST-only attribution, with no well-formedness hypothesis -/

/-- Every request value held anywhere in the state is a POST. -/
def PostOnly (s : InteractionLogger) : Prop :=
  ∀ r ∈ mentionedRequests s, r.method = "POST"

theorem on_request_not_post {s : InteractionLogger} {r : LoggedRequest} {now : ℚ}
    (hm : r.method ≠ "POST") : on_request s r now = s := by
  rw [on_request, if_pos hm]

theorem postOnly_stepEvent {s : InteractionLogger} (h : PostOnly s) (e : Event) :
    PostOnly (stepEvent s e) := by
  cases e with
  | interaction t =>
    intro r' hr'
    exact h r' (mentioned_log_interaction hr')
  | request k rawId t now method url pd =>
    by_cases hm : method = "POST"
    · intro r' hr'
      rcases mentioned_on_request hr' with h1 | h1
      · exact h r' h1
      · rw [h1, hm]
    · rw [stepEvent, on_request_not_post hm]
      exact h
  | response m rawId t status =>
    intro r' hr'
    exact h r' (mentioned_on_response hr')

theorem postOnly_foldl (es : List Event) : ∀ s : InteractionLogger, PostOnly s →
    PostOnly (es.foldl stepEvent s) := by
  induction es with
  | nil => intro s hs; exact hs
  | cons e rest ih =>
    intro s hs
    rw [List.foldl_cons]
    exact ih _ (postOnly_stepEvent hs e)

theorem postOnly_runTrace (es : List Event) : PostOnly (runTrace es) := by
  refine postOnly_foldl es .init ?_
  intro r hr
  simp [InteractionLogger.init, mentionedRequests, allRequests] at hr

/-! ### Correlator claims -/

/-- A total attribution count stays at 2 when each list holds the value at
most twice and no two distinct lists hold it. -/
theorem count_flatten_le_two {L : List (List LoggedRequest)} {r : LoggedRequest}
    (hItem : ∀ l ∈ L, l.count r ≤ 2)
    (hOnce : ∀ (i j : Nat) (li lj : List LoggedRequest),
      L[i]? = some li → L[j]? = some lj → r ∈ li → r ∈ lj → i = j) :
    L.flatten.count r ≤ 2 := by
  induction L with
  | nil => simp
  | cons l L' ih =>
    rw [List.flatten_cons, List.count_append]
    by_cases hr : r ∈ l
    · have hzero : L'.flatten.count r = 0 := by
        rw [List.count_eq_zero]
        intro hmem
        rw [List.mem_flatten] at hmem
        obtain ⟨lj, hlj, hrj⟩ := hmem
        obtain ⟨j, hj⟩ := List.getElem?_of_mem hlj
        have := hOnce 0 (j + 1) l lj (by simp) (by simpa using hj) hr hrj
        omega
      have h1 := hItem l (List.mem_cons_self _ _)
      omega
    · have hzero : l.count r = 0 := List.count_eq_zero_of_not_mem hr
      have h2 := ih (fun l' hl' => hItem l' (List.mem_cons_of_mem _ hl'))
        (fun i j li lj hi hj hri hrj => by
          have := hOnce (i + 1) (j + 1) li lj (by simpa using hi) (by simpa using hj) hri hrj
          omega)
      omega

/-- C1 counterexample: on the well-formed trace "interaction at t=10.0, then
POST request at t=11.5", the request is appended twice to the same
interaction's request list (once by `add_request`'s look-forward attach, once
by the `on_request` handler's direct add), so it appears twice, not at most
once, in the request lists of all interactions combined. -/
theorem write_attribution_once_counterexample :
    WFTrace [.interaction 10, .request 1 5 (23/2) (23/2) "POST" "u" "d"] ∧
    ((runTrace [.interaction 10, .request 1 5 (23/2) (23/2) "POST" "u" "d"]).interactions.map
      InteractionRec.requests).flatten.count ⟨1, 5, 23/2, "POST", "u", "d"⟩ = 2 := by
  constructor
  · decide
  · decide

/-- C1 (amended): on every well-formed trace, an attributed write-type request
satisfies the strict look-back bound `t_i - 1.0 < t_r` (no upper bound) or the
look-forward bound `t_r - t_i < 2.0` (no lower bound); a request id is never
attributed to two different interactions; and a request appears at most twice
(not once: the look-forward path can append it twice) in the request lists of
all interactions combined. -/
theorem write_attribution_windows (es : List Event) (hwf : WFTrace es) :
    (∀ itc ∈ (runTrace es).interactions, ∀ r ∈ itc.requests,
      itc.timestamp - 1 < r.timestamp ∨ r.timestamp - itc.timestamp < 2) ∧
    (∀ (i j : Nat) (itci itcj : InteractionRec) (ri rj : LoggedRequest),
      (runTrace es).interactions[i]? = some itci →
      (runTrace es).interactions[j]? = some itcj →
      ri ∈ itci.requests → rj ∈ itcj.requests → ri.id = rj.id → i = j) ∧
    (∀ r : LoggedRequest,
      ((runTrace es).interactions.map InteractionRec.requests).flatten.count r ≤ 2) := by
  have hinv := inv_runTrace es hwf
  have huniq : ∀ (i j : Nat) (itci itcj : InteractionRec) (ri rj : LoggedRequest),
      (runTrace es).interactions[i]? = some itci →
      (runTrace es).interactions[j]? = some itcj →
      ri ∈ itci.requests → rj ∈ itcj.requests → ri.id = rj.id → i = j := by
    intro i j itci itcj ri rj hi hj hri hrj hid
    have hmi : ri ∈ mentionedRequests (runTrace es) :=
      mem_mentioned.mpr (.inr (.inr ⟨itci, List.getElem?_mem hi, hri⟩))
    have hmj : rj ∈ mentionedRequests (runTrace es) :=
      mem_mentioned.mpr (.inr (.inr ⟨itcj, List.getElem?_mem hj, hrj⟩))
    have heq : ri = rj := hinv.inj ri rj hmi hmj hid
    subst heq
    have h1 := hinv.list_map i itci hi ri hri
    have h2 := hinv.list_map j itcj hj ri hrj
    rw [h1] at h2
    injection h2
  refine ⟨hinv.timing, huniq, ?_⟩
  intro r
  refine count_flatten_le_two ?_ ?_
  · intro l hl
    rw [List.mem_map] at hl
    obtain ⟨itc, hitc, rfl⟩ := hl
    exact hinv.count_le itc hitc r
  · intro i j li lj hi hj hri hrj
    rw [List.getElem?_map] at hi hj
    cases hii : (runTrace es).interactions[i]? with
    | none => rw [hii] at hi; exact absurd hi (by simp)
    | some itci =>
      cases hjj : (runTrace es).interactions[j]? with
      | none => rw [hjj] at hj; exact absurd hj (by simp)
      | some itcj =>
        rw [hii] at hi; rw [hjj] at hj
        simp at hi hj
        subst hi; subst hj
        exact huniq i j itci itcj r r hii hjj hri hrj rfl

/-- C1 witness: the amended statement instantiated on the duplicate-append
trace. -/
theorem write_attribution_windows_witness :
    (∀ itc ∈ (runTrace [.interaction 10,
        .request 1 5 (23/2) (23/2) "POST" "u" "d"]).interactions, ∀ r ∈ itc.requests,
      itc.timestamp - 1 < r.timestamp ∨ r.timestamp - itc.timestamp < 2) ∧
    (∀ r : LoggedRequest,
      ((runTrace [.interaction 10,
        .request 1 5 (23/2) (23/2) "POST" "u" "d"]).interactions.map
          InteractionRec.requests).flatten.count r ≤ 2) := by
  have h := write_attribution_windows
    [.interaction 10, .request 1 5 (23/2) (23/2) "POST" "u" "d"] (by decide)
  exact ⟨h.1, h.2.2⟩

/-- C2: on every well-formed trace, every response attached to an interaction
references a request attached to the same interaction. -/
theorem response_request_same_interaction (es : List Event) (hwf : WFTrace es) :
    ∀ itc ∈ (runTrace es).interactions, ∀ resp ∈ itc.responses,
      resp.request ∈ itc.requests :=
  (inv_runTrace es hwf).resp_req

/-- The C2 witness trace: interaction, look-forward POST, then its response. -/
def exRespTrace : List Event :=
  [.interaction 10, .request 1 5 11 11 "POST" "u" "d", .response "POST" 5 12 200]

/-- C2 witness: the theorem applied to `exRespTrace`, whose one interaction
holds the response `⟨12, 200, req⟩` for the attributed request `req`. -/
theorem response_request_same_interaction_witness :
    (⟨12, 200, ⟨1, 5, 11, "POST", "u", "d"⟩⟩ : LoggedResponse).request ∈
      (⟨10, [⟨1, 5, 11, "POST", "u", "d"⟩, ⟨1, 5, 11, "POST", "u", "d"⟩],
        [⟨12, 200, ⟨1, 5, 11, "POST", "u", "d"⟩⟩]⟩ : InteractionRec).requests :=
  response_request_same_interaction exRespTrace (by decide)
    ⟨10, [⟨1, 5, 11, "POST", "u", "d"⟩, ⟨1, 5, 11, "POST", "u", "d"⟩],
      [⟨12, 200, ⟨1, 5, 11, "POST", "u", "d"⟩⟩]⟩ (by decide)
    ⟨12, 200, ⟨1, 5, 11, "POST", "u", "d"⟩⟩ (by decide)

/-- C3: in every state reachable by any sequence of correlator events, every
request attributed to any interaction is a POST; read-type requests are never
attributed. -/
theorem read_requests_never_attributed (es : List Event) :
    ∀ itc ∈ (runTrace es).interactions, ∀ r ∈ itc.requests, r.method = "POST" := by
  intro itc hitc r hr
  exact postOnly_runTrace es r (mem_mentioned.mpr (.inr (.inr ⟨itc, hitc, hr⟩)))

/-- C3 witness: the theorem applied to a concrete trace with an attributed
request. -/
theorem read_requests_never_attributed_witness :
    (⟨1, 5, 11, "POST", "u", "d"⟩ : LoggedRequest).method = "POST" :=
  read_requests_never_attributed [.interaction 10, .request 1 5 11 11 "POST" "u" "d"]
    ⟨10, [⟨1, 5, 11, "POST", "u", "d"⟩, ⟨1, 5, 11, "POST", "u", "d"⟩], []⟩ (by decide)
    ⟨1, 5, 11, "POST", "u", "d"⟩ (by decide)

/-- C4: the correlator operations are total (modelled as total functions);
`record_response` for a response whose raw request was never registered
returns the state unchanged, and when the registered request has no
attributed interaction the response is dropped with the state unchanged. -/
theorem record_response_missing_noop :
    (∀ (s : InteractionLogger) (rawMethod : String) (rawId : Nat) (t : ℚ) (status : Nat),
      lookupAssoc s.playwright_to_logged rawId = none →
      on_response s rawMethod rawId t status = s) ∧
    (∀ (s : InteractionLogger) (rawMethod : String) (rawId : Nat) (t : ℚ) (status : Nat)
      (r : LoggedRequest),
      lookupAssoc s.playwright_to_logged rawId = some r →
      lookupAssoc s.request_to_interaction r.id = none →
      on_response s rawMethod rawId t status = s) := by
  constructor
  · intro s rawMethod rawId t status hpw
    rw [on_response]
    split
    · rfl
    · simp only [InteractionLogger.add_response, hpw]
  · intro s rawMethod rawId t status r hpw hattr
    rw [on_response]
    split
    · rfl
    · simp only [InteractionLogger.add_response, hpw, hattr]

/-- C4 witness: a response with an unregistered raw request on the fresh
logger, and a response whose registered request is still backlogged. -/
theorem record_response_missing_noop_witness :
    on_response .init "POST" 7 3 200 = InteractionLogger.init ∧
    on_response (runTrace [.request 1 5 12 12 "POST" "u" "d"]) "POST" 5 13 200 =
      runTrace [.request 1 5 12 12 "POST" "u" "d"] :=
  ⟨record_response_missing_noop.1 .init "POST" 7 3 200 (by decide),
    record_response_missing_noop.2 (runTrace [.request 1 5 12 12 "POST" "u" "d"])
      "POST" 5 13 200 ⟨1, 5, 12, "POST", "u", "d"⟩ (by decide) (by decide)⟩

/-- C5 counterexample: a backlogged POST with timestamp 15 — after, not
within the 1.0-unit look-back window before, the interaction timestamp 10 —
is removed from the backlog and attributed by `record_interaction`, instead
of remaining in the backlog as the claim requires. -/
theorem backlog_sweep_window_counterexample :
    WFTrace [.request 1 5 15 15 "POST" "u" "d", .interaction 10] ∧
    (runTrace [.request 1 5 15 15 "POST" "u" "d"]).request_backlog =
      [⟨1, 5, 15, "POST", "u", "d"⟩] ∧
    ¬ ((15 : ℚ) ≤ 10) ∧
    (runTrace [.request 1 5 15 15 "POST" "u" "d", .interaction 10]).request_backlog = [] ∧
    ((runTrace [.request 1 5 15 15 "POST" "u" "d", .interaction 10]).interactions.map
      InteractionRec.requests).flatten = [⟨1, 5, 15, "POST", "u", "d"⟩] := by
  refine ⟨by decide, by decide, by decide, by decide, by decide⟩

/-- C5 (amended): `record_interaction` removes from the backlog exactly the
POST requests with timestamp strictly greater than `t - 1.0` — the strict
look-back window with no upper bound, which also captures backlogged requests
timestamped after the interaction — attributing exactly those to the new
interaction; every other backlogged request remains, the previous
interactions are unchanged, and the raw-handle map is unchanged. -/
theorem record_interaction_frame (s : InteractionLogger) (t : ℚ) :
    (∀ r : LoggedRequest, r ∈ (s.log_interaction t).request_backlog ↔
      (r ∈ s.request_backlog ∧ ¬(r.method = "POST" ∧ t - 1 < r.timestamp))) ∧
    (∃ itc, (s.log_interaction t).interactions = s.interactions ++ [itc] ∧
      itc.timestamp = t ∧ itc.responses = [] ∧
      ∀ r : LoggedRequest, r ∈ itc.requests ↔
        (r ∈ s.request_backlog ∧ r.method = "POST" ∧ t - 1 < r.timestamp)) ∧
    (s.log_interaction t).playwright_to_logged = s.playwright_to_logged := by
  refine ⟨?_, ⟨⟨t, s.request_backlog.filter (sweepCond t), []⟩, rfl, rfl, rfl, ?_⟩, rfl⟩
  · intro r
    constructor
    · intro hr
      have hmem := List.mem_of_mem_filter hr
      have hcond := List.of_mem_filter hr
      refine ⟨hmem, ?_⟩
      intro hc
      rw [show sweepCond t r = true from sweepCond_iff.mpr hc] at hcond
      simp at hcond
    · intro ⟨hmem, hc⟩
      refine List.mem_filter.mpr ⟨hmem, ?_⟩
      simp only [Bool.not_eq_eq_eq_not, Bool.not_true, Bool.not_eq_true]
      rw [← Bool.not_eq_true]
      intro hc'
      exact hc (sweepCond_iff.mp hc')
  · intro r
    constructor
    · intro hr
      exact ⟨List.mem_of_mem_filter hr, sweepCond_iff.mp (List.of_mem_filter hr)⟩
    · intro ⟨hmem, hc⟩
      exact List.mem_filter.mpr ⟨hmem, sweepCond_iff.mpr hc⟩

/-- C5 witness: the frame property instantiated on a reachable state with one
backlogged POST at timestamp 9.5 swept by an interaction at 10.0. -/
theorem record_interaction_frame_witness :
    ((runTrace [.request 1 5 (19/2) (19/2) "POST" "u" "d"]).log_interaction 10).request_backlog = [] ∧
    ((runTrace [.request 1 5 (19/2) (19/2) "POST" "u" "d"]).log_interaction 10).playwright_to_logged =
      (runTrace [.request 1 5 (19/2) (19/2) "POST" "u" "d"]).playwright_to_logged := by
  have h := record_interaction_frame (runTrace [.request 1 5 (19/2) (19/2) "POST" "u" "d"]) 10
  constructor
  · rw [List.eq_nil_iff_forall_not_mem]
    intro r hr
    obtain ⟨hm, hcond⟩ := (h.1 r).mp hr
    have hb : (runTrace [.request 1 5 (19/2) (19/2) "POST" "u" "d"]).request_backlog =
        [⟨1, 5, 19/2, "POST", "u", "d"⟩] := by decide
    rw [hb, List.mem_singleton] at hm
    subst hm
    exact hcond (by constructor <;> decide)
  · exact h.2.2

/-- C10: attribution-map coherence on every well-formed trace: every map
entry points to an interaction holding a request with the mapped id, and
every attributed request's id is mapped to its interaction. -/
theorem attribution_map_coherent (es : List Event) (hwf : WFTrace es) :
    (∀ (k i : Nat), lookupAssoc (runTrace es).request_to_interaction k = some i →
      ∃ itc, (runTrace es).interactions[i]? = some itc ∧ ∃ r ∈ itc.requests, r.id = k) ∧
    (∀ (i : Nat) (itc : InteractionRec), (runTrace es).interactions[i]? = some itc →
      ∀ r ∈ itc.requests, lookupAssoc (runTrace es).request_to_interaction r.id = some i) :=
  ⟨(inv_runTrace es hwf).map_sound, (inv_runTrace es hwf).list_map⟩

/-- C10 witness: both directions instantiated on the duplicate-append trace,
whose final state maps request id 1 to interaction index 0. -/
theorem attribution_map_coherent_witness :
    (∃ itc, (runTrace [.interaction 10,
        .request 1 5 11 11 "POST" "u" "d"]).interactions[0]? = some itc ∧
      ∃ r ∈ itc.requests, r.id = 1) ∧
    lookupAssoc (runTrace [.interaction 10,
      .request 1 5 11 11 "POST" "u" "d"]).request_to_interaction 1 = some 0 := by
  have h := attribution_map_coherent [.interaction 10, .request 1 5 11 11 "POST" "u" "d"]
    (by decide)
  refine ⟨h.1 1 0 (by decide), ?_⟩
  exact h.2 0 ⟨10, [⟨1, 5, 11, "POST", "u", "d"⟩, ⟨1, 5, 11, "POST", "u", "d"⟩], []⟩
    (by decide) ⟨1, 5, 11, "POST", "u", "d"⟩ (by decide)

/-! ### Site serialization (`data_models.py`, `Site.to_json`) -/

/-- `LoggedRequest.__repr__` (`manual_workflow.py`, lines 20-21), used by
`str(interaction.requests[0])`; the float timestamp is rendered through the
model's rational representation. -/
def reprLoggedRequest (r : LoggedRequest) : String :=
  "<LoggedRequest " ++ r.method ++ " " ++ r.url ++ " at " ++ toString r.timestamp ++
    ". Post data:" ++ r.post_data ++ ">"

/-- `LoggedResponse.__repr__` (`manual_workflow.py`, lines 31-32); the
trailing rendering of the raw Playwright response object is driver-opaque and
is not modelled. -/
def reprLoggedResponse (resp : LoggedResponse) : String :=
  "<LoggedResponse " ++ toString resp.status ++ " for " ++ resp.request.url ++ ">"

/-- One entry of `page_dict["interactions"]` (`Site.to_json`, lines 106-119),
restricted to the fields the model carries; the element selector, DOM path,
coordinates and screenshot path are copied through verbatim by the source and
are not modelled. -/
structure InteractionJson where
  timestamp : ℚ
  request_count : Nat
  response_count : Nat
  first_request : Option String
  first_response : Option String
deriving DecidableEq, Repr

/-- The `interaction_dict` construction of `Site.to_json` (lines 107-119):
counts of the request/response lists and the stringified first
request/response, or `None` on empty lists. -/
def interactionToJson (itc : InteractionRec) : InteractionJson :=
  { timestamp := itc.timestamp
    request_count := itc.requests.length
    response_count := itc.responses.length
    first_request := match itc.requests with
      | [] => none
      | r :: _ => some (reprLoggedRequest r)
    first_response := match itc.responses with
      | [] => none
      | resp :: _ => some (reprLoggedResponse resp) }

/-- A `Page` (`data_models.py`, lines 50-60), restricted to the fields
`to_json` reads for the interaction entries. -/
structure PageModel where
  url : String
  dir : String
  interactions : List InteractionRec
deriving DecidableEq, Repr

/-- The interaction part of `Site.to_json` (lines 92-120): for each page of
the site dictionary, the list of serialized interaction entries, one per
interaction in order. -/
def siteInteractionsJson (site : List (String × PageModel)) :
    List (String × List InteractionJson) :=
  site.map (fun up => (up.1, up.2.interactions.map interactionToJson))

/-- C6: serializing a Site yields, for a Page with N interactions each
holding R requests, exactly N interaction entries whose `request_count` is R;
each entry's `first_request` is the stringified first request of the
corresponding interaction, or null when that interaction has no requests. -/
theorem to_json_interaction_entries (site : List (String × PageModel)) (u : String)
    (p : PageModel) (hmem : (u, p) ∈ site) (N R : Nat)
    (hN : p.interactions.length = N)
    (hR : ∀ itc ∈ p.interactions, itc.requests.length = R) :
    ∃ entries, (u, entries) ∈ siteInteractionsJson site ∧ entries.length = N ∧
      (∀ e ∈ entries, e.request_count = R) ∧
      (∀ (k : Nat) (itc : InteractionRec), p.interactions[k]? = some itc →
        ∃ e, entries[k]? = some e ∧
          (itc.requests = [] → e.first_request = none) ∧
          (∀ r rest, itc.requests = r :: rest →
            e.first_request = some (reprLoggedRequest r))) := by
  refine ⟨p.interactions.map interactionToJson, ?_, ?_, ?_, ?_⟩
  · rw [siteInteractionsJson, List.mem_map]
    exact ⟨(u, p), hmem, rfl⟩
  · rw [List.length_map, hN]
  · intro e he
    rw [List.mem_map] at he
    obtain ⟨itc, hitc, rfl⟩ := he
    show itc.requests.length = R
    exact hR itc hitc
  · intro k itc hk
    refine ⟨interactionToJson itc, ?_, ?_, ?_⟩
    · rw [List.getElem?_map, hk]
      rfl
    · intro hreq
      show (match itc.requests with
        | [] => none
        | r :: _ => some (reprLoggedRequest r)) = none
      rw [hreq]
    · intro r rest hreq
      show (match itc.requests with
        | [] => none
        | r :: _ => some (reprLoggedRequest r)) = some (reprLoggedRequest r)
      rw [hreq]

/-- C6 witness: a site with one page holding two interactions of one request
each. -/
theorem to_json_interaction_entries_witness :
    ∃ entries, ("https:u", entries) ∈ siteInteractionsJson
      [("https:u", ⟨"https:u", "u", [⟨10, [⟨1, 5, 11, "POST", "a", "d"⟩], []⟩,
        ⟨20, [⟨2, 6, 21, "POST", "b", "d"⟩], []⟩]⟩)] ∧
      entries.length = 2 ∧ (∀ e ∈ entries, e.request_count = 1) ∧
      (∀ (k : Nat) (itc : InteractionRec),
        ([⟨10, [⟨1, 5, 11, "POST", "a", "d"⟩], []⟩,
          ⟨20, [⟨2, 6, 21, "POST", "b", "d"⟩], []⟩] :
            List InteractionRec)[k]? = some itc →
        ∃ e, entries[k]? = some e ∧
          (itc.requests = [] → e.first_request = none) ∧
          (∀ r rest, itc.requests = r :: rest →
            e.first_request = some (reprLoggedRequest r))) :=
  to_json_interaction_entries _ "https:u"
    ⟨"https:u", "u", [⟨10, [⟨1, 5, 11, "POST", "a", "d"⟩], []⟩,
      ⟨20, [⟨2, 6, 21, "POST", "b", "d"⟩], []⟩]⟩
    (by decide) 2 1 (by decide) (by decide)

/-! ### URL sanitizer (`utils.py`, `get_sanitized_name_from_url`) -/

/-- Python `str.split(sep)` for a one-character separator, on character
lists: always yields at least one (possibly empty) group. -/
def splitChar (sep : Char) : List Char → List (List Char)
  | [] => [[]]
  | c :: cs =>
    let rest := splitChar sep cs
    if c = sep then [] :: rest
    else
      match rest with
      | [] => [[c]]
      | g :: gs => (c :: g) :: gs

theorem splitChar_ne_nil (sep : Char) (l : List Char) : splitChar sep l ≠ [] := by
  induction l with
  | nil => simp [splitChar]
  | cons c cs ih =>
    rw [splitChar]
    by_cases h : c = sep
    · simp [h]
    · simp only [if_neg h]
      cases hr : splitChar sep cs with
      | nil => simp
      | cons g gs => simp

/-- The result of `urllib.parse.urlparse` plus `parse_qs`, the stdlib
boundary the sanitizer works on: the network location, the path, whether the
raw query string is nonempty (Python's `if parsed_url.query:`), and the
parsed query parameters in first-occurrence order with their value lists. -/
structure ParsedUrl where
  netloc : String
  path : String
  hasQuery : Bool
  queryParams : List (String × List String)
deriving DecidableEq, Repr

/-- The character class kept by `re.sub(r'[^\w\-=/]', '', base_name)`:
the ASCII fragment of `\w` (letters, digits, underscore) plus hyphen, equals
and slash. -/
def keepChar (c : Char) : Bool :=
  c.isAlphanum || c = '_' || c = '-' || c = '=' || c = '/'

/-- `get_sanitized_name_from_url` (`utils.py`, lines 6-38).  The Python
`IndexError` raised by `domain_parts[1]` when the netloc is the bare label
`"www"` is modelled as `none`.  String manipulation is carried out on
character lists (`splitChar` models `str.split`). -/
def get_sanitized_name_from_url (u : ParsedUrl) : Option String :=
  let domainParts := splitChar '.' u.netloc.data
  let domainName := domainParts.headD []
  let dn? : Option (List Char) :=
    if domainName = "www".data then domainParts[1]? else some domainName
  match dn? with
  | none => none
  | some dn =>
    let pathParts := (splitChar '/' u.path.data).filter (fun p => p ≠ [])
    let baseName := List.intercalate ['/'] (dn :: pathParts)
    let paramValues := u.queryParams.filterMap (fun pv =>
      if pv.1.length < 12 ∧ pv.2 ≠ [] ∧ (pv.2.headD "").length < 12 then
        some (pv.1.data ++ ['='] ++ (pv.2.headD "").data)
      else none)
    let baseName' := if u.hasQuery ∧ paramValues ≠ [] then
        baseName ++ ['/'] ++ List.intercalate ['_'] paramValues
      else baseName
    some (String.mk (baseName'.filter keepChar))

/-- C9 counterexample: parsing `"http://www"` yields the netloc `"www"`, on
which the Python function raises `IndexError` at `domain_parts[1]` (modelled
as `none`) instead of returning a string. -/
theorem get_sanitized_name_raises_counterexample :
    get_sanitized_name_from_url ⟨"www", "", false, []⟩ = none := by decide

/-- C9 (amended): the function fails exactly when the netloc's first
dot-label is `www` and there is no second label (where the Python code
raises `IndexError`); whenever it returns a string, every character of that
string is a word character (letter, digit, underscore), hyphen, equals sign,
or slash. -/
theorem get_sanitized_name_safe :
    (∀ u : ParsedUrl, (get_sanitized_name_from_url u = none ↔
      ((splitChar '.' u.netloc.data).headD [] = "www".data ∧
        (splitChar '.' u.netloc.data).length = 1))) ∧
    (∀ (u : ParsedUrl) (s : String), get_sanitized_name_from_url u = some s →
      ∀ c ∈ s.data, keepChar c = true) := by
  constructor
  · intro u
    rw [get_sanitized_name_from_url]
    by_cases hw : (splitChar '.' u.netloc.data).headD [] = "www".data
    · simp only [if_pos hw]
      cases h1 : (splitChar '.' u.netloc.data)[1]? with
      | none =>
        simp only [true_and, hw]
        constructor
        · intro _
          have hlen : (splitChar '.' u.netloc.data).length ≤ 1 := by
            by_contra hc
            rw [List.getElem?_eq_none_iff] at h1
            omega
          have hne := splitChar_ne_nil '.' u.netloc.data
          have hpos : 0 < (splitChar '.' u.netloc.data).length := List.length_pos.mpr hne
          omega
        · intro _
          trivial
      | some dn =>
        simp only [hw, true_and]
        constructor
        · intro hc
          exact absurd hc (by simp)
        · intro hlen
          rw [List.getElem?_eq_none_iff.mpr (by omega)] at h1
          exact absurd h1 (by simp)
    · simp only [if_neg hw]
      constructor
      · intro hc
        exact absurd hc (by simp)
      · intro ⟨hc, _⟩
        exact absurd hc hw
  · intro u s hs c hc
    rw [get_sanitized_name_from_url] at hs
    by_cases hw : (splitChar '.' u.netloc.data).headD [] = "www".data
    · rw [if_pos hw] at hs
      cases h1 : (splitChar '.' u.netloc.data)[1]? with
      | none =>
        rw [h1] at hs
        exact absurd hs (by simp)
      | some dn =>
        rw [h1] at hs
        simp only [Option.some.injEq] at hs
        subst hs
        exact List.of_mem_filter hc
    · rw [if_neg hw] at hs
      simp only [Option.some.injEq] at hs
      subst hs
      exact List.of_mem_filter hc

/-- C9 witness: the amended claim instantiated on the parse of
`"https://example.com/a/b?x=1"`. -/
theorem get_sanitized_name_safe_witness : keepChar 'e' = true :=
  get_sanitized_name_safe.2 ⟨"example.com", "/a/b", true, [("x", ["1"])]⟩
    "example/a/b/x=1" (by decide) 'e' (by decide)

/-! ### Asset extraction (`automation_utils.py`, `extract_assets_from_html`) -/

/-- An `Asset` (`data_models.py`, lines 7-11). -/
structure AssetModel where
  url : String
  asset_type : String
  text : Option String
deriving DecidableEq, Repr

/-- An `Assets` record (`data_models.py`, lines 13-18). -/
structure AssetsModel where
  imgs : List AssetModel
  styling : List AssetModel
  js : List AssetModel
  html : List AssetModel
deriving DecidableEq, Repr

/-- The parsed-document boundary for the extractor: the `img` tags (src and
alt text), the `link rel='stylesheet'` hrefs, the `script` tag srcs, and the
`url(...)` references inside inline `style` attributes, each in the document
order `find_all` yields. -/
structure HtmlDocAssets where
  imgTags : List (Option String × Option String)
  stylesheetHrefs : List (Option String)
  scriptSrcs : List (Option String)
  inlineStyleUrls : List String
deriving DecidableEq, Repr

/-- `download_asset` (`automation_utils.py`, lines 81-135): resolve the URL
(protocol-relative and relative URLs joined against the base url — the
`resolve` oracle), fetch it (`fetchOk` models `requests.get` succeeding with
status 200), and on success return the original URL together with the local
path `os.path.join(save_dir, original_url)`; on any failure return nothing
(the Python `except` path prints and returns `(None, None)`). -/
def download_asset (resolve : String → String) (fetchOk : String → Bool)
    (asset_url : String) (save_dir : String) : Option (String × String) :=
  if fetchOk (resolve asset_url) then some (asset_url, save_dir ++ "/" ++ asset_url)
  else none

/-- `extract_assets_from_html` (`automation_utils.py`, lines 10-78): appends
an `img`-typed asset for every `img` tag whose `src` downloads, and a
`css`-typed asset for every stylesheet link whose `href` downloads.  The
JavaScript block (lines 38-61) and the favicon and inline-style
background-image blocks (lines 63-76) are inside triple-quoted string
literals — commented out — so they record nothing. -/
def extract_assets_from_html (resolve : String → String) (fetchOk : String → Bool)
    (doc : HtmlDocAssets) (save_dir : String) (assets : AssetsModel) : AssetsModel :=
  let imgNew := doc.imgTags.filterMap (fun sa =>
    match sa.1 with
    | none => none
    | some src =>
      match download_asset resolve fetchOk src save_dir with
      | none => none
      | some res => some ({ url := res.2, asset_type := "img", text := sa.2 } : AssetModel))
  let cssNew := doc.stylesheetHrefs.filterMap (fun href? =>
    match href? with
    | none => none
    | some href =>
      match download_asset resolve fetchOk href save_dir with
      | none => none
      | some res => some ({ url := res.2, asset_type := "css", text := none } : AssetModel))
  { assets with imgs := assets.imgs ++ imgNew, styling := assets.styling ++ cssNew }

/-- C7 counterexample: a page whose document holds a script reference and a
background-image URL inside an inline style, with every download succeeding,
still records no `js` asset and no image asset: the script and
background-image extraction blocks are disabled in the source. -/
theorem extract_assets_counterexample :
    (extract_assets_from_html id (fun _ => true)
      ⟨[], [], [some "app.js"], ["bg.png"]⟩ "assets/p" ⟨[], [], [], []⟩).js = [] ∧
    (extract_assets_from_html id (fun _ => true)
      ⟨[], [], [some "app.js"], ["bg.png"]⟩ "assets/p" ⟨[], [], [], []⟩).imgs = [] := by
  constructor
  · rfl
  · rfl

/-- C7 (amended): the replay-phase asset extraction downloads and records
only two of the four kinds — images and stylesheets.  Every `img` tag whose
src resolves and fetches is recorded as an `img` asset under the per-page
asset directory, every stylesheet link whose href fetches is recorded as a
`css` asset, and the `js`/`html` asset lists are left untouched: the script,
favicon, and background-image blocks are commented out in the source. -/
theorem extract_assets_only_imgs_and_styles (resolve : String → String)
    (fetchOk : String → Bool) (doc : HtmlDocAssets) (save_dir : String)
    (assets : AssetsModel) :
    (extract_assets_from_html resolve fetchOk doc save_dir assets).js = assets.js ∧
    (extract_assets_from_html resolve fetchOk doc save_dir assets).html = assets.html ∧
    (∀ src alt, (some src, alt) ∈ doc.imgTags → fetchOk (resolve src) = true →
      ({ url := save_dir ++ "/" ++ src, asset_type := "img", text := alt } : AssetModel) ∈
        (extract_assets_from_html resolve fetchOk doc save_dir assets).imgs) ∧
    (∀ href, some href ∈ doc.stylesheetHrefs → fetchOk (resolve href) = true →
      ({ url := save_dir ++ "/" ++ href, asset_type := "css", text := none } : AssetModel) ∈
        (extract_assets_from_html resolve fetchOk doc save_dir assets).styling) ∧
    (∀ a ∈ (extract_assets_from_html resolve fetchOk doc save_dir assets).imgs,
      a ∈ assets.imgs ∨ a.asset_type = "img") ∧
    (∀ a ∈ (extract_assets_from_html resolve fetchOk doc save_dir assets).styling,
      a ∈ assets.styling ∨ a.asset_type = "css") := by
  refine ⟨rfl, rfl, ?_, ?_, ?_, ?_⟩
  · intro src alt hmem hfetch
    show _ ∈ assets.imgs ++ _
    refine List.mem_append_right _ ?_
    rw [List.mem_filterMap]
    refine ⟨(some src, alt), hmem, ?_⟩
    simp only [download_asset, hfetch, if_pos]
  · intro href hmem hfetch
    show _ ∈ assets.styling ++ _
    refine List.mem_append_right _ ?_
    rw [List.mem_filterMap]
    refine ⟨some href, hmem, ?_⟩
    simp only [download_asset, hfetch, if_pos]
  · intro a ha
    rcases List.mem_append.mp ha with h | h
    · exact .inl h
    · rw [List.mem_filterMap] at h
      obtain ⟨sa, _, hsa⟩ := h
      refine .inr ?_
      cases hsrc : sa.1 with
      | none => rw [hsrc] at hsa; exact absurd hsa (by simp)
      | some src =>
        rw [hsrc] at hsa
        have hsa' : (match download_asset resolve fetchOk src save_dir with
          | none => none
          | some res =>
            some ({ url := res.2, asset_type := "img", text := sa.2 } : AssetModel)) =
            some a := hsa
        cases hd : download_asset resolve fetchOk src save_dir with
        | none => rw [hd] at hsa'; exact absurd hsa' (by simp)
        | some res =>
          rw [hd] at hsa'
          simp only [Option.some.injEq] at hsa'
          rw [← hsa']
  · intro a ha
    rcases List.mem_append.mp ha with h | h
    · exact .inl h
    · rw [List.mem_filterMap] at h
      obtain ⟨href?, _, hsa⟩ := h
      refine .inr ?_
      cases hsrc : href? with
      | none => rw [hsrc] at hsa; exact absurd hsa (by simp)
      | some href =>
        rw [hsrc] at hsa
        have hsa' : (match download_asset resolve fetchOk href save_dir with
          | none => none
          | some res =>
            some ({ url := res.2, asset_type := "css", text := none } : AssetModel)) =
            some a := hsa
        cases hd : download_asset resolve fetchOk href save_dir with
        | none => rw [hd] at hsa'; exact absurd hsa' (by simp)
        | some res =>
          rw [hd] at hsa'
          simp only [Option.some.injEq] at hsa'
          rw [← hsa']

/-- C7 witness: one img tag and one stylesheet, both fetchable, are
recorded. -/
theorem extract_assets_only_imgs_and_styles_witness :
    ({ url := "assets/p" ++ "/" ++ "logo.png", asset_type := "img",
        text := some "logo" } : AssetModel) ∈
      (extract_assets_from_html id (fun _ => true)
        ⟨[(some "logo.png", some "logo")], [some "main.css"], [], []⟩
        "assets/p" ⟨[], [], [], []⟩).imgs :=
  (extract_assets_only_imgs_and_styles id (fun _ => true)
    ⟨[(some "logo.png", some "logo")], [some "main.css"], [], []⟩
    "assets/p" ⟨[], [], [], []⟩).2.2.1 "logo.png" (some "logo") (by decide) rfl

/-! ### DOM model for the truncation pass
(`automated_workflow.py`, `truncate_repeated_elements`)

The parsed document is a flat arena in preorder (BeautifulSoup's document
order): each element carries a unique `nid` (Python object identity), its
parent's nid, its tag name, class list, `data-testid` attribute, and the
length of its own text content.  `decompose` removes an element together
with its subtree; decomposing an already-removed element is a no-op in the
model (the loops of the source either guard on `decomposed` or never hit
this case on the documents considered here).  Python float thresholds
(`0.7`, `0.8`, `1.3`) are modelled exactly on `ℚ`. -/

structure Elem where
  nid : Nat
  parent : Option Nat
  name : String
  classes : List String
  testid : Option String
  textLen : Nat
deriving DecidableEq, Repr

/-- A document: the element arena in document (preorder) order. -/
abbrev Dom := List Elem

/-- Find an element by identity. -/
def findElem (d : Dom) (nid : Nat) : Option Elem :=
  d.find? (fun e => e.nid = nid)

/-- The nids of the ancestors of an element, nearest first, computed by
walking parent pointers (fuelled by the arena size, which bounds every
ancestor chain of a well-formed forest). -/
def ancestorIdsAux (d : Dom) : Nat → Option Nat → List Nat
  | 0, _ => []
  | _, none => []
  | fuel + 1, some p =>
    match findElem d p with
    | none => []
    | some pe => p :: ancestorIdsAux d fuel pe.parent

def ancestorIds (d : Dom) (e : Elem) : List Nat :=
  ancestorIdsAux d d.length e.parent

/-- `len(list(element.parents))`: the model ancestors plus the enclosing
`BeautifulSoup` object itself. -/
def parentsCount (d : Dom) (e : Elem) : Nat :=
  (ancestorIds d e).length + 1

/-- `Tag.decompose()`: remove the element and its whole subtree. -/
def decomposeOne (d : Dom) (t : Nat) : Dom :=
  d.filter (fun e => e.nid ≠ t && !((ancestorIds d e).contains t))

/-- Sequential decomposition of a list of elements (each loop of the source
decomposes its victims one at a time). -/
def decomposeMany (d : Dom) (ts : List Nat) : Dom :=
  ts.foldl decomposeOne d

/-- `element.find_all([...tags...], recursive=False)`: direct children with
one of the given tag names, in document order. -/
def childrenWithTags (d : Dom) (nid : Nat) (tags : List String) : List Elem :=
  d.filter (fun e => e.parent = some nid && tags.contains e.name)

/-- `soup.find_all(tag)`: every element with the given tag name. -/
def findAllTag (d : Dom) (tag : String) : List Elem :=
  d.filter (fun e => e.name = tag)

/-- Strict-descendant test (`section.select` searches descendants only). -/
def inSubtree (d : Dom) (anc : Nat) (e : Elem) : Bool :=
  (ancestorIds d e).contains anc

/-- A CSS selector of the shapes the source uses: tag name, required
classes, and an optional required `data-testid` value. -/
structure Selector where
  tag : String
  classes : List String
  testid : Option String
deriving Repr

def matchesSel (sel : Selector) (e : Elem) : Bool :=
  e.name = sel.tag && sel.classes.all (fun c => e.classes.contains c) &&
    (match sel.testid with
     | none => true
     | some t => e.testid = some t)

/-- `soup.select(selector)` for the supported selector shapes. -/
def selectAll (d : Dom) (sel : Selector) : List Elem :=
  d.filter (matchesSel sel)

/-- `section.select(selector)` (descendants only). -/
def selectIn (d : Dom) (anc : Nat) (sel : Selector) : List Elem :=
  d.filter (fun e => inSubtree d anc e && matchesSel sel e)

/-- The length contribution of one element to `len(str(tag))`: open tag with
its attributes, own text, close tag. -/
def nodeStrLen (e : Elem) : Nat :=
  2 + e.name.length +
    (if e.classes.isEmpty then 0 else 9 + (String.intercalate " " e.classes).length) +
    (match e.testid with
     | none => 0
     | some t => 15 + t.length) +
    e.textLen + 3 + e.name.length

/-- `len(str(element))`: summed contributions over the element's subtree. -/
def strLen (d : Dom) (nid : Nat) : Nat :=
  ((d.filter (fun e => e.nid = nid || (ancestorIds d e).contains nid)).map nodeStrLen).sum

/-- The content signature of a subtree, modelling BeautifulSoup's
content-based `Tag.__eq__`/`Tag.__hash__`: the preorder list of
(relative depth, name, classes, testid, text length). -/
def subtreeSig (d : Dom) (nid : Nat) : List (Nat × String × List String × Option String × Nat) :=
  match findElem d nid with
  | none => []
  | some root =>
    (d.filter (fun e => e.nid = nid || (ancestorIds d e).contains nid)).map
      (fun e => ((ancestorIds d e).length - (ancestorIds d root).length,
        e.name, e.classes, e.testid, e.textLen))

/-- Python dict grouping with a custom key equality, preserving
first-occurrence key order and element order. -/
def groupByKey {κ α : Type} (keq : κ → κ → Bool) (key : α → κ) (xs : List α) :
    List (κ × List α) :=
  xs.foldl (fun acc x =>
    let k := key x
    if acc.any (fun p => keq p.1 k) then
      acc.map (fun p => if keq p.1 k then (p.1, p.2 ++ [x]) else p)
    else acc ++ [(k, [x])]) []

/-! #### Rule combinators: every truncation block either leaves the document
unchanged or decomposes something and bumps `truncated_count` by one. -/

/-- Fold a per-group step over the groups of one rule: `f` fires (returns the
mutated document) or passes. -/
def ruleFold {γ : Type} (f : Dom → γ → Option Dom) (xs : List γ) (d : Dom) : Dom × Nat :=
  xs.foldl (fun p x =>
    match f p.1 x with
    | none => p
    | some d' => (d', p.2 + 1)) (d, 0)

/-- Sequential composition of rules, accumulating the truncation count. -/
def runRules (rules : List (Dom → Dom × Nat)) (d : Dom) : Dom × Nat :=
  rules.foldl (fun p rule => ((rule p.1).1, p.2 + (rule p.1).2)) (d, 0)

theorem ruleFold_zero {γ : Type} (f : Dom → γ → Option Dom) (xs : List γ) :
    ∀ (d : Dom), (ruleFold f xs d).2 = 0 → (ruleFold f xs d).1 = d := by
  have key : ∀ (xs : List γ) (p : Dom × Nat),
      (xs.foldl (fun p x => match f p.1 x with
        | none => p
        | some d' => (d', p.2 + 1)) p).2 = p.2 →
      (xs.foldl (fun p x => match f p.1 x with
        | none => p
        | some d' => (d', p.2 + 1)) p).1 = p.1 := by
    intro xs
    induction xs with
    | nil => intro p _; rfl
    | cons x rest ih =>
      intro p hcount
      rw [List.foldl_cons] at hcount ⊢
      cases hf : f p.1 x with
      | none =>
        rw [hf] at hcount
        exact ih p hcount
      | some d' =>
        rw [hf] at hcount
        exfalso
        have hmono : ∀ (ys : List γ) (q : Dom × Nat),
            q.2 ≤ (ys.foldl (fun p x => match f p.1 x with
              | none => p
              | some d' => (d', p.2 + 1)) q).2 := by
          intro ys
          induction ys with
          | nil => intro q; exact le_refl _
          | cons y rest' ih' =>
            intro q
            rw [List.foldl_cons]
            cases hg : f q.1 y with
            | none => exact ih' q
            | some d'' =>
              calc q.2 ≤ q.2 + 1 := Nat.le_succ _
                _ ≤ _ := ih' (d'', q.2 + 1)
        have hle : (d', p.2 + 1).2 ≤ (rest.foldl (fun p x => match f p.1 x with
            | none => p
            | some d' => (d', p.2 + 1)) (d', p.2 + 1)).2 := hmono rest (d', p.2 + 1)
        have hcount' : (rest.foldl (fun p x => match f p.1 x with
            | none => p
            | some d' => (d', p.2 + 1)) (d', p.2 + 1)).2 = p.2 := hcount
        simp only at hle
        omega
  intro d hc
  exact key xs (d, 0) hc

theorem runRules_zero (rules : List (Dom → Dom × Nat))
    (hz : ∀ rule ∈ rules, ∀ d : Dom, (rule d).2 = 0 → (rule d).1 = d) :
    ∀ d : Dom, (runRules rules d).2 = 0 → (runRules rules d).1 = d := by
  have key : ∀ (rs : List (Dom → Dom × Nat)),
      (∀ rule ∈ rs, ∀ d : Dom, (rule d).2 = 0 → (rule d).1 = d) →
      ∀ (p : Dom × Nat),
      (rs.foldl (fun p rule => ((rule p.1).1, p.2 + (rule p.1).2)) p).2 = p.2 →
      (rs.foldl (fun p rule => ((rule p.1).1, p.2 + (rule p.1).2)) p).1 = p.1 := by
    intro rs
    induction rs with
    | nil => intro _ p _; rfl
    | cons rule rest ih =>
      intro hz' p hcount
      rw [List.foldl_cons] at hcount ⊢
      have hmono : ∀ (ys : List (Dom → Dom × Nat)) (q : Dom × Nat),
          q.2 ≤ (ys.foldl (fun p rule => ((rule p.1).1, p.2 + (rule p.1).2)) q).2 := by
        intro ys
        induction ys with
        | nil => intro q; exact le_refl _
        | cons y rest' ih' =>
          intro q
          rw [List.foldl_cons]
          have hstep := ih' ((y q.1).1, q.2 + (y q.1).2)
          calc q.2 ≤ q.2 + (y q.1).2 := Nat.le_add_right _ _
            _ ≤ _ := hstep
      have hle := hmono rest ((rule p.1).1, p.2 + (rule p.1).2)
      simp only at hle hcount
      have hc0 : (rule p.1).2 = 0 := by
        rw [hcount] at hle
        have h2 : p.2 + (rule p.1).2 ≤ p.2 + 0 := by simpa using hle
        exact Nat.eq_zero_of_le_zero (Nat.le_of_add_le_add_left h2)
      have hd0 : (rule p.1).1 = p.1 := hz' rule (List.mem_cons_self _ _) p.1 hc0
      have hacc : ((rule p.1).1, p.2 + (rule p.1).2) = p := by
        rw [hd0, hc0]
        simp
      rw [hacc] at hcount
      have hgoal := ih (fun r hr => hz' r (List.mem_cons_of_mem _ hr)) p hcount
      show (rest.foldl (fun p rule => ((rule p.1).1, p.2 + (rule p.1).2))
        ((rule p.1).1, p.2 + (rule p.1).2)).1 = p.1
      rw [hacc]
      exact hgoal
  intro d hc
  exact key rules hz (d, 0) hc

/-! #### The truncation rules of `automated_workflow.truncate_repeated_elements` -/

/-- The grid/carousel/list selectors (`automated_workflow.py`, lines 19-58),
in order. -/
def gridSelectors : List Selector :=
  [⟨"ul", ["f4", "cs", "bh", "nq", "gn", "nr"], none⟩,
   ⟨"ul", ["f9", "ak", "gn", "ns"], none⟩,
   ⟨"ul", [], some "carousel"⟩,
   ⟨"div", ["carousel"], none⟩,
   ⟨"div", ["slider"], none⟩,
   ⟨"ul", ["carousel-items"], none⟩,
   ⟨"div", [], some "carousel-slide"⟩,
   ⟨"ul", ["f4", "cs", "bh", "no", "gl", "np"], none⟩,
   ⟨"ul", ["al", "f4", "cs", "bh", "no", "gl", "np"], none⟩,
   ⟨"div", ["grid"], none⟩,
   ⟨"div", ["grid-container"], none⟩,
   ⟨"ul", ["grid"], none⟩,
   ⟨"div", ["products-grid"], none⟩,
   ⟨"div", ["items-grid"], none⟩,
   ⟨"div", ["gallery"], none⟩,
   ⟨"ul", ["product-list"], none⟩,
   ⟨"div", ["product-list"], none⟩,
   ⟨"ul", ["items"], none⟩,
   ⟨"div", ["items-container"], none⟩,
   ⟨"div", ["products"], none⟩,
   ⟨"ul", ["products"], none⟩,
   ⟨"div", ["search-results"], none⟩,
   ⟨"div", ["collection-products"], none⟩,
   ⟨"div", [], some "store-card"⟩,
   ⟨"div", ["m9", "p0", "p1"], some "store-card"⟩,
   ⟨"div", ["store-list"], none⟩,
   ⟨"div", ["restaurants-list"], none⟩,
   ⟨"li", [], some "carousel-slide"⟩,
   ⟨"div", ["l7", "al", "l9", "la", "nn"], none⟩]

/-- Lines 61-73: per matching element, keep the first `max_items` direct
`li`/`div`/`article` children and decompose the overflow. -/
def selStep (max_items : Nat) (d : Dom) (el : Elem) : Option Dom :=
  let items := childrenWithTags d el.nid ["li", "div", "article"]
  if items.length > max_items then
    some (decomposeMany d ((items.drop max_items).map Elem.nid))
  else none

def rule_grid_selectors (max_items : Nat) (d : Dom) : Dom × Nat :=
  runRules (gridSelectors.map (fun sel => fun d0 =>
    ruleFold (selStep max_items) (selectAll d0 sel) d0)) d

/-- The store cards a container holds (`find_all` over descendants). -/
def storeCardsIn (d : Dom) (anc : Nat) : List Elem :=
  d.filter (fun e => inSubtree d anc e && e.name = "div" && e.testid = some "store-card")

/-- Lines 75-99: for the first five store cards, the nearest `div` among the
first three ancestors holding more than `max_items` store cards is collected
(with its stale card list), then each collected container is truncated. -/
def rule_store_cards (max_items : Nat) (d : Dom) : Dom × Nat :=
  let store_cards := d.filter (fun e => e.name = "div" && e.testid = some "store-card")
  let containers : List (Nat × List Nat) :=
    if store_cards.length > max_items then
      (store_cards.take 5).foldl (fun acc card =>
        match (((ancestorIds d card).take 3).filterMap (findElem d)).find? (fun pe =>
          pe.name = "div" && (storeCardsIn d pe.nid).length > max_items) with
        | none => acc
        | some pe => acc ++ [(pe.nid, (storeCardsIn d pe.nid).map Elem.nid)]) []
    else []
  ruleFold (fun dc pr =>
    if pr.2.length > max_items then some (decomposeMany dc (pr.2.drop max_items))
    else none) containers d

/-- Lines 101-112: the Uber-Eats store-card pattern; the `parent` truthiness
check always passes for an attached element (its parent is at worst the
soup object). -/
def rule_food_delivery (max_items : Nat) (d : Dom) : Dom × Nat :=
  let cards := selectAll d ⟨"div", ["m9", "p0", "p1"], some "store-card"⟩
  ruleFold (fun dc cs =>
    if cs.length > max_items then
      some (decomposeMany dc ((cs.drop max_items).map Elem.nid))
    else none) (if cards.length > max_items then [cards] else []) d

/-- `ul:has(li[data-testid='carousel-slide'])`. -/
def hasSlideDesc (d : Dom) (ul : Nat) : Bool :=
  d.any (fun e => inSubtree d ul e && e.name = "li" && e.testid = some "carousel-slide")

/-- Lines 114-139: sections recognized as carousels (at most `max_carousels`
of them, scanning in document order) have their slide lists truncated to
three. -/
def rule_carousels (max_carousels : Nat) (d : Dom) : Dom × Nat :=
  let collected := (findAllTag d "section").foldl
    (fun (acc : List (Nat × List Nat) × Nat) sec =>
      if acc.2 ≥ max_carousels then acc
      else
        let ind1 := selectIn d sec.nid ⟨"button", [], some "next-arrow-carousel"⟩
        let indicators :=
          if ind1.isEmpty then selectIn d sec.nid ⟨"li", [], some "carousel-slide"⟩ else ind1
        if indicators.isEmpty then acc
        else
          let slide_lists := d.filter (fun e =>
            inSubtree d sec.nid e && e.name = "ul" && hasSlideDesc d e.nid)
          if slide_lists.length > 3 then
            (acc.1 ++ [(sec.nid, slide_lists.map Elem.nid)], acc.2 + 1)
          else acc) ([], 0)
  ruleFold (fun dc pr =>
    if pr.2.length > 3 then some (decomposeMany dc (pr.2.drop 3)) else none) collected.1 d

/-- Lines 141-148: keep only the first `max_carousels` sections. -/
def rule_section_cap (max_carousels : Nat) (d : Dom) : Dom × Nat :=
  ruleFold (fun dc secs =>
    if secs.length > max_carousels then
      some (decomposeMany dc ((secs.drop max_carousels).map Elem.nid))
    else none) [findAllTag d "section"] d

/-- Lines 150-166: group every element carrying `data-testid` by the value,
and truncate each over-cap group except the carousel ones. -/
def rule_data_testid (max_items : Nat) (d : Dom) : Dom × Nat :=
  let groups := groupByKey (fun a b => a = b) (fun e => e.testid.getD "")
    (d.filter (fun e => e.testid.isSome))
  ruleFold (fun dc pr =>
    if pr.2.length > max_items && pr.1 ≠ "carousel" && pr.1 ≠ "carousel-slide" then
      some (decomposeMany dc ((pr.2.drop max_items).map Elem.nid))
    else none) groups d

/-- Lines 168-181: containers of repeated carousel ULs, truncated to three
ULs each. -/
def rule_carousel_uls (d : Dom) : Dom × Nat :=
  let pairs := (selectAll d ⟨"div", ["l7", "al", "l9", "la", "nn"], none⟩).foldl
    (fun acc c =>
      let uls := selectIn d c.nid ⟨"ul", ["al", "f4", "cs", "bh", "no", "gl", "np"], none⟩
      if uls.length > 3 then acc ++ [(c.nid, uls.map Elem.nid)] else acc) []
  ruleFold (fun dc pr =>
    if pr.2.length > 3 then some (decomposeMany dc (pr.2.drop 3)) else none) pairs d

/-- The common classes across the classed children (`set.intersection`). -/
def commonClasses : List (List String) → List String
  | [] => []
  | s :: rest => rest.foldl (fun acc t => acc.filter (fun c => t.contains c)) s

/-- Lines 183-209: collect elements (depth at most 10) with at least eight
similar direct children — at least 70 percent classed, sharing a common
class or a common tag.  The Python float factor `0.7` is modelled exactly as
`7/10 : ℚ`. -/
def collectGrids (d : Dom) : List (Nat × List Nat) :=
  ((["div", "ul", "section"].map (findAllTag d)).flatten.filterMap (fun e =>
    if parentsCount d e > 10 then none
    else
      let children := childrenWithTags d e.nid ["div", "li", "article"]
      if children.length ≥ 8 then
        let class_sets := (children.filter (fun c => !c.classes.isEmpty)).map Elem.classes
        if class_sets ≠ [] ∧ (class_sets.length : ℚ) ≥ 7/10 * (children.length : ℚ) then
          if commonClasses class_sets ≠ [] ∨
              children.all (fun c => c.name = (children.headD ⟨0, none, "", [], none, 0⟩).name) then
            some (e.nid, children.map Elem.nid)
          else none
        else none
      else none))

/-- Lines 211-218: truncate each collected potential grid. -/
def gridTrunc (max_items : Nat) (dc : Dom) (pr : Nat × List Nat) : Option Dom :=
  if pr.2.length > max_items then some (decomposeMany dc (pr.2.drop max_items)) else none

/-- Content equality of parents, modelling BeautifulSoup's content-based
`Tag.__eq__`/`__hash__`; all top-level elements share the soup as parent. -/
def parentKeyEq (dc : Dom) (a b : Option Nat) : Bool :=
  match a, b with
  | none, none => true
  | some x, some y => subtreeSig dc x = subtreeSig dc y
  | _, _ => false

/-- Lines 220-255: group classed `li`/`div`/`article` elements by tag plus
sorted class list (modelled as tag plus class multiset), and for each
over-cap group truncate the children of the first parent holding more than
`max_items` of them (the `break` ends the parent scan for that group). -/
def rule_repeated (max_items : Nat) (d : Dom) : Dom × Nat :=
  let elems := ((["li", "div", "article"].map (findAllTag d)).flatten).filter
    (fun e => !e.classes.isEmpty)
  let groups := groupByKey
    (fun (a b : String × List String) => a.1 = b.1 && a.2.isPerm b.2)
    (fun e => (e.name, e.classes)) elems
  ruleFold (fun dc pr =>
    if pr.2.length > max_items then
      match (groupByKey (parentKeyEq dc) (fun e => e.parent) pr.2).find?
          (fun pg => pg.2.length > max_items) with
      | none => none
      | some pg => some (decomposeMany dc ((pg.2.drop max_items).map Elem.nid))
    else none) groups d

/-- Lines 266-283 inner loop: try `div`, `li`, `article` children in turn;
the first child tag whose over-cap children have at least 80 percent of
their rendered lengths within 30 percent of the average fires and ends the
scan for this element.  The float factors `0.7`, `1.3`, `0.8` are modelled
exactly on `ℚ`. -/
def tryChildTags (max_items : Nat) (dc : Dom) (el : Elem) : List String → Option Dom
  | [] => none
  | tag :: rest =>
    let children := childrenWithTags dc el.nid [tag]
    if children.length > max_items then
      let lens := children.map (fun c => strLen dc c.nid)
      let avg : ℚ := (lens.sum : ℚ) / (lens.length : ℚ)
      let similar := (lens.filter (fun L =>
        decide (7/10 * avg ≤ (L : ℚ)) && decide ((L : ℚ) ≤ 13/10 * avg))).length
      if (similar : ℚ) ≥ 4/5 * (children.length : ℚ) then
        some (decomposeMany dc ((children.drop max_items).map Elem.nid))
      else tryChildTags max_items dc el rest
    else tryChildTags max_items dc el rest

/-- Lines 257-283: the final fallback; elements already decomposed or equal
(by content) to a collected potential grid are skipped. -/
def fallbackStep (max_items : Nat) (gridFirsts : List Nat) (dc : Dom) (el : Elem) :
    Option Dom :=
  if (findElem dc el.nid).isNone then none
  else if gridFirsts.any (fun g => g = el.nid || subtreeSig dc g = subtreeSig dc el.nid) then
    none
  else tryChildTags max_items dc el ["div", "li", "article"]

def rule_fallback (max_items : Nat) (gridFirsts : List Nat) (d : Dom) : Dom × Nat :=
  runRules (["div", "section", "main"].map (fun tag => fun d0 =>
    ruleFold (fallbackStep max_items gridFirsts) (findAllTag d0 tag) d0)) d

/-- `truncate_repeated_elements` (`automated_workflow.py`, lines 11-285):
the truncation blocks in source order, returning the document and the
reported `truncated_count`. -/
def truncate_repeated_elements (max_items max_carousels : Nat) (d : Dom) : Dom × Nat :=
  let p1 := rule_grid_selectors max_items d
  let p2 := rule_store_cards max_items p1.1
  let p3 := rule_food_delivery max_items p2.1
  let p4 := rule_carousels max_carousels p3.1
  let p5 := rule_section_cap max_carousels p4.1
  let p6 := rule_data_testid max_items p5.1
  let p7 := rule_carousel_uls p6.1
  let grids := collectGrids p7.1
  let p8 := ruleFold (gridTrunc max_items) grids p7.1
  let p9 := rule_repeated max_items p8.1
  let p10 := rule_fallback max_items (grids.map Prod.fst) p9.1
  (p10.1, p1.2 + p2.2 + p3.2 + p4.2 + p5.2 + p6.2 + p7.2 + p8.2 + p9.2 + p10.2)

/-- The replay phase's invocation (`automated_workflow.py`, line 420):
`truncate_repeated_elements(soup, max_items=12)` with the default
`max_carousels=2`. -/
def truncate_page (d : Dom) : Dom × Nat :=
  truncate_repeated_elements 12 2 d

/-! #### A zero-count application changes nothing -/

theorem rule_grid_selectors_zero (m : Nat) (d : Dom)
    (hc : (rule_grid_selectors m d).2 = 0) : (rule_grid_selectors m d).1 = d := by
  refine runRules_zero _ ?_ d hc
  intro rule hrule d0 hc0
  rw [List.mem_map] at hrule
  obtain ⟨sel, _, rfl⟩ := hrule
  exact ruleFold_zero _ _ d0 hc0

theorem rule_store_cards_zero (m : Nat) (d : Dom)
    (hc : (rule_store_cards m d).2 = 0) : (rule_store_cards m d).1 = d :=
  ruleFold_zero _ _ d hc

theorem rule_food_delivery_zero (m : Nat) (d : Dom)
    (hc : (rule_food_delivery m d).2 = 0) : (rule_food_delivery m d).1 = d :=
  ruleFold_zero _ _ d hc

theorem rule_carousels_zero (mc : Nat) (d : Dom)
    (hc : (rule_carousels mc d).2 = 0) : (rule_carousels mc d).1 = d :=
  ruleFold_zero _ _ d hc

theorem rule_section_cap_zero (mc : Nat) (d : Dom)
    (hc : (rule_section_cap mc d).2 = 0) : (rule_section_cap mc d).1 = d :=
  ruleFold_zero _ _ d hc

theorem rule_data_testid_zero (m : Nat) (d : Dom)
    (hc : (rule_data_testid m d).2 = 0) : (rule_data_testid m d).1 = d :=
  ruleFold_zero _ _ d hc

theorem rule_carousel_uls_zero (d : Dom)
    (hc : (rule_carousel_uls d).2 = 0) : (rule_carousel_uls d).1 = d :=
  ruleFold_zero _ _ d hc

theorem rule_repeated_zero (m : Nat) (d : Dom)
    (hc : (rule_repeated m d).2 = 0) : (rule_repeated m d).1 = d :=
  ruleFold_zero _ _ d hc

theorem rule_fallback_zero (m : Nat) (gs : List Nat) (d : Dom)
    (hc : (rule_fallback m gs d).2 = 0) : (rule_fallback m gs d).1 = d := by
  refine runRules_zero _ ?_ d hc
  intro rule hrule d0 hc0
  rw [List.mem_map] at hrule
  obtain ⟨tag, _, rfl⟩ := hrule
  exact ruleFold_zero _ _ d0 hc0

/-- C8 (amended, part 2): whenever `truncate_repeated_elements` reports zero
truncations, it leaves the document unchanged — every decomposition site in
the source lies in a block that also increments `truncated_count`. -/
theorem truncate_zero_fix (m mc : Nat) (d : Dom)
    (h : (truncate_repeated_elements m mc d).2 = 0) :
    (truncate_repeated_elements m mc d).1 = d := by
  simp only [truncate_repeated_elements] at h ⊢
  set a1 := rule_grid_selectors m d with ha1
  set a2 := rule_store_cards m a1.1 with ha2
  set a3 := rule_food_delivery m a2.1 with ha3
  set a4 := rule_carousels mc a3.1 with ha4
  set a5 := rule_section_cap mc a4.1 with ha5
  set a6 := rule_data_testid m a5.1 with ha6
  set a7 := rule_carousel_uls a6.1 with ha7
  set gs := collectGrids a7.1 with hgs
  set a8 := ruleFold (gridTrunc m) gs a7.1 with ha8
  set a9 := rule_repeated m a8.1 with ha9
  set a10 := rule_fallback m (gs.map Prod.fst) a9.1 with ha10
  have hc1 : a1.2 = 0 := by omega
  have hc2 : a2.2 = 0 := by omega
  have hc3 : a3.2 = 0 := by omega
  have hc4 : a4.2 = 0 := by omega
  have hc5 : a5.2 = 0 := by omega
  have hc6 : a6.2 = 0 := by omega
  have hc7 : a7.2 = 0 := by omega
  have hc8 : a8.2 = 0 := by omega
  have hc9 : a9.2 = 0 := by omega
  have hc10 : a10.2 = 0 := by omega
  have e1 : a1.1 = d := by
    rw [ha1] at hc1 ⊢
    exact rule_grid_selectors_zero m d hc1
  rw [e1] at ha2
  have e2 : a2.1 = d := by
    rw [ha2] at hc2 ⊢
    exact rule_store_cards_zero m d hc2
  rw [e2] at ha3
  have e3 : a3.1 = d := by
    rw [ha3] at hc3 ⊢
    exact rule_food_delivery_zero m d hc3
  rw [e3] at ha4
  have e4 : a4.1 = d := by
    rw [ha4] at hc4 ⊢
    exact rule_carousels_zero mc d hc4
  rw [e4] at ha5
  have e5 : a5.1 = d := by
    rw [ha5] at hc5 ⊢
    exact rule_section_cap_zero mc d hc5
  rw [e5] at ha6
  have e6 : a6.1 = d := by
    rw [ha6] at hc6 ⊢
    exact rule_data_testid_zero m d hc6
  rw [e6] at ha7
  have e7 : a7.1 = d := by
    rw [ha7] at hc7 ⊢
    exact rule_carousel_uls_zero d hc7
  rw [e7] at ha8
  have e8 : a8.1 = d := by
    rw [ha8] at hc8 ⊢
    exact ruleFold_zero _ _ d hc8
  rw [e8] at ha9
  have e9 : a9.1 = d := by
    rw [ha9] at hc9 ⊢
    exact rule_repeated_zero m d hc9
  rw [e9] at ha10
  have e10 : a10.1 = d := by
    rw [ha10] at hc10 ⊢
    exact rule_fallback_zero m _ d hc10
  exact e10

/-- C8 witness material: a document whose only div, `nid 2` under the body,
holds fourteen equal-length div children and fourteen equal-length li
children. -/
def exTruncDoc : Dom :=
  [⟨1, none, "body", [], none, 0⟩,
   ⟨2, some 1, "div", [], none, 0⟩] ++
  (List.range 14).map (fun k => ⟨10 + k, some 2, "div", [], none, 5⟩) ++
  (List.range 14).map (fun k => ⟨30 + k, some 2, "li", [], none, 7⟩)

/-- `exTruncDoc` after one application: the final fallback truncates the div
children to twelve and then stops scanning child tags for that parent. -/
def exTruncDoc1 : Dom :=
  [⟨1, none, "body", [], none, 0⟩,
   ⟨2, some 1, "div", [], none, 0⟩] ++
  (List.range 12).map (fun k => ⟨10 + k, some 2, "div", [], none, 5⟩) ++
  (List.range 14).map (fun k => ⟨30 + k, some 2, "li", [], none, 7⟩)

/-- `exTruncDoc1` after another application: the fallback now reaches the li
children and truncates them too. -/
def exTruncDoc2 : Dom :=
  [⟨1, none, "body", [], none, 0⟩,
   ⟨2, some 1, "div", [], none, 0⟩] ++
  (List.range 12).map (fun k => ⟨10 + k, some 2, "div", [], none, 5⟩) ++
  (List.range 12).map (fun k => ⟨30 + k, some 2, "li", [], none, 7⟩)

/-- C8 counterexample: on `exTruncDoc` the first application of the
truncation pass (as the replay phase invokes it, `max_items = 12`,
`max_carousels = 2`) reports one truncation and removes two div children;
the second application, run on that output, again reports one truncation
(not zero) and removes two further elements — the fallback's
one-child-tag-per-parent `break` left the li group untouched on the first
pass.  So the pass is not idempotent. -/
theorem truncate_not_idempotent_counterexample :
    truncate_page exTruncDoc = (exTruncDoc1, 1) ∧
    truncate_page exTruncDoc1 = (exTruncDoc2, 1) ∧
    exTruncDoc2 ≠ exTruncDoc1 := by
  refine ⟨?_, ?_, by decide⟩
  · show (_, _) = (_, _)
    refine Prod.ext ?_ ?_
    · decide
    · decide
  · show (_, _) = (_, _)
    refine Prod.ext ?_ ?_
    · decide
    · decide

/-- C8 witness: the zero-report fixpoint property applied to a document the
pass does not truncate. -/
theorem truncate_zero_fix_witness :
    (truncate_repeated_elements 12 2
      [⟨1, none, "body", [], none, 0⟩, ⟨2, some 1, "div", [], none, 0⟩]).1 =
      [⟨1, none, "body", [], none, 0⟩, ⟨2, some 1, "div", [], none, 0⟩] :=
  truncate_zero_fix 12 2 _ (by decide)

end Yutori
